import Mathlib

/-!
Verification development for the aquarium simulation engine.

The engine's numeric state (f32 component arrays, WGSL f32 vectors, JS
numbers) is modelled over the exact rationals; float rounding is
abstracted away.  The square-root intrinsic of the GPU language (and the
trigonometric intrinsics of the festival system) have irrational values,
so they are passed in as explicit function parameters; every theorem
below either holds for all values of those parameters or evaluates the
program on inputs where the intrinsic is provably never consulted.

Sources embedded here:
  * src/gpu/boids.wgsl            (limit, wrap_around, main)
  * src/engine/systems.ts         (movementSystem, the CPU fallback)
  * src/engine/boidsComputeSystem.ts (boidsConfig, marshalling)
  * src/engine/loop.ts            (gameLoop)
  * src/engine/metabolismSystem.ts
  * src/engine/foragingSystem.ts
  * src/engine/socialSystem.ts
  * src/engine/festivalSystem.ts
  * src/engine/persistence.ts     (saveState / loadState)
The rule files data/rules/social.json and data/rules/evolution.json are
not part of the source tree; rule lists are therefore parameters of the
embedded systems, and where a claim depends on the concrete rule data
the data is modelled from the spec (marked in the doc comments).
-/

namespace Aquarium

/-- JS Math.min over exact rationals. -/
def jsMin (a b : ℚ) : ℚ := min a b

/-- JS Math.max over exact rationals. -/
def jsMax (a b : ℚ) : ℚ := max a b

/-- The clamp pattern Math.max(lo, Math.min(hi, v)) used throughout the code. -/
def jsClamp (lo hi v : ℚ) : ℚ := jsMax lo (jsMin hi v)

/-- Pointwise update of a component array modelled as a total function. -/
def upd {α : Type} (f : ℕ → α) (e : ℕ) (v : α) : ℕ → α :=
  fun x => if x = e then v else f x

@[simp] theorem upd_same {α : Type} (f : ℕ → α) (e : ℕ) (v : α) : upd f e v e = v := by
  simp [upd]

@[simp] theorem upd_other {α : Type} (f : ℕ → α) (e x : ℕ) (v : α) (h : x ≠ e) :
    upd f e v x = f x := by
  simp [upd, h]

/-- A 3-component f32 vector, modelled over ℚ. -/
structure Vec3 where
  x : ℚ
  y : ℚ
  z : ℚ
deriving DecidableEq, Repr

namespace Vec3

def add (a b : Vec3) : Vec3 := ⟨a.x + b.x, a.y + b.y, a.z + b.z⟩

def sub (a b : Vec3) : Vec3 := ⟨a.x - b.x, a.y - b.y, a.z - b.z⟩

def smul (c : ℚ) (a : Vec3) : Vec3 := ⟨c * a.x, c * a.y, c * a.z⟩

/-- WGSL dot product. -/
def dot (a b : Vec3) : ℚ := a.x * b.x + a.y * b.y + a.z * b.z

def zero : Vec3 := ⟨0, 0, 0⟩

end Vec3

/-- A particle of the boids GPU buffers: position and velocity
(struct Particle in src/gpu/boids.wgsl). -/
structure Particle where
  pos : Vec3
  vel : Vec3
deriving DecidableEq, Repr

/-- The SimParams uniform block of src/gpu/boids.wgsl (num_particles is
implicit as the length of the particle list). -/
structure BoidsParams where
  delta_time : ℚ
  cohesion_factor : ℚ
  separation_factor : ℚ
  alignment_factor : ℚ
  perception_radius : ℚ
  separation_distance : ℚ
  max_speed : ℚ
  max_force : ℚ
  world_size_x : ℚ
  world_size_y : ℚ
  world_size_z : ℚ
deriving Repr

/-- The boidsConfig defaults of src/engine/boidsComputeSystem.ts. -/
def boidsConfig : BoidsParams :=
  { delta_time := 1 / 10
    cohesion_factor := 2 / 100
    separation_factor := 8 / 10
    alignment_factor := 5 / 100
    perception_radius := 10
    separation_distance := 2
    max_speed := 2
    max_force := 1 / 10
    world_size_x := 100
    world_size_y := 100
    world_size_z := 100 }

/-- WGSL helper fn limit of src/gpu/boids.wgsl: clamp a vector to a maximal
length.  The intrinsic sqrt is the parameter s. -/
def limitVec (s : ℚ → ℚ) (v : Vec3) (maxVal : ℚ) : Vec3 :=
  let lengthSq := Vec3.dot v v
  if lengthSq > maxVal * maxVal ∧ lengthSq > 0 then
    Vec3.smul (maxVal / s lengthSq) v
  else
    v

/-- WGSL helper fn wrap_around of src/gpu/boids.wgsl: sequential per-axis
boundary teleport to the opposite face (literal translation of the six
if-statements). -/
def wrapAround (sx sy sz : ℚ) (pos : Vec3) : Vec3 :=
  let hx := sx * (1 / 2)
  let hy := sy * (1 / 2)
  let hz := sz * (1 / 2)
  let x1 := if pos.x < -hx then hx else pos.x
  let x2 := if x1 > hx then -hx else x1
  let y1 := if pos.y < -hy then hy else pos.y
  let y2 := if y1 > hy then -hy else y1
  let z1 := if pos.z < -hz then hz else pos.z
  let z2 := if z1 > hz then -hz else z1
  ⟨x2, y2, z2⟩

/-- Neighbour accumulators of the kernel main loop. -/
structure BoidsAccum where
  cohesionVec : Vec3
  separationVec : Vec3
  alignmentVec : Vec3
  nCohesion : ℕ
  nSeparation : ℕ
  nAlignment : ℕ

/-- One iteration of the kernel's inner loop body over the other particle
with index i (skipping i = idx is done by the caller). -/
def kernelLoopBody (s : ℚ → ℚ) (p : BoidsParams) (cur : Particle) (acc : BoidsAccum)
    (other : Particle) : BoidsAccum :=
  let d := Vec3.sub cur.pos other.pos
  let dist := s (Vec3.dot d d)
  let acc1 :=
    if dist > 0 ∧ dist < p.perception_radius then
      { acc with
        cohesionVec := Vec3.add acc.cohesionVec other.pos
        nCohesion := acc.nCohesion + 1
        alignmentVec := Vec3.add acc.alignmentVec other.vel
        nAlignment := acc.nAlignment + 1 }
    else acc
  if dist > 0 ∧ dist < p.separation_distance then
    let diff := Vec3.sub cur.pos other.pos
    let nrm := Vec3.smul (1 / s (Vec3.dot diff diff)) diff
    { acc1 with
      separationVec := Vec3.add acc1.separationVec (Vec3.smul (1 / dist) nrm)
      nSeparation := acc1.nSeparation + 1 }
  else acc1

/-- The per-entity rule body of fn main in src/gpu/boids.wgsl: scan all other
particles, steer, integrate, clamp, wrap.  All reads are from the read-only
input snapshot ps. -/
def kernelStep (s : ℚ → ℚ) (p : BoidsParams) (ps : List Particle) (idx : ℕ) : Particle :=
  let cur := ps.getD idx ⟨Vec3.zero, Vec3.zero⟩
  let acc0 : BoidsAccum := ⟨Vec3.zero, Vec3.zero, Vec3.zero, 0, 0, 0⟩
  let acc := (ps.enum.foldl (fun a ⟨i, o⟩ =>
    if i = idx then a else kernelLoopBody s p cur a o) acc0)
  let accel0 : Vec3 := Vec3.zero
  let accel1 :=
    if acc.nCohesion > 0 then
      let avg := Vec3.smul (1 / (acc.nCohesion : ℚ)) acc.cohesionVec
      let steer := limitVec s (Vec3.sub avg cur.pos) p.max_force
      Vec3.add accel0 (Vec3.smul p.cohesion_factor steer)
    else accel0
  let accel2 :=
    if acc.nAlignment > 0 then
      let avg := Vec3.smul (1 / (acc.nAlignment : ℚ)) acc.alignmentVec
      let steer := limitVec s avg p.max_force
      Vec3.add accel1 (Vec3.smul p.alignment_factor steer)
    else accel1
  let accel3 :=
    if acc.nSeparation > 0 then
      let avg := Vec3.smul (1 / (acc.nSeparation : ℚ)) acc.separationVec
      let steer := limitVec s avg p.max_force
      Vec3.add accel2 (Vec3.smul p.separation_factor steer)
    else accel2
  let vel1 := Vec3.add cur.vel (Vec3.smul p.delta_time accel3)
  let vel2 := limitVec s vel1 p.max_speed
  let pos1 := Vec3.add cur.pos (Vec3.smul p.delta_time vel2)
  let pos2 := wrapAround p.world_size_x p.world_size_y p.world_size_z pos1
  ⟨pos2, vel2⟩

/-- The per-entity body of the CPU fallback movementSystem
(src/engine/systems.ts): Position += Velocity, Velocity untouched. -/
def cpuMoveEntity (p : Particle) : Particle := ⟨Vec3.add p.pos p.vel, p.vel⟩

/-- The sequential CPU fallback loop of movementSystem, modelled as an
in-place update pass over the snapshot list of queried entities: iteration i
reads slot i of the current state and writes slot i back. -/
def movementSystemList (ps : List Particle) : List Particle :=
  (List.range ps.length).foldl
    (fun acc i => acc.set i (cpuMoveEntity (acc.getD i ⟨Vec3.zero, Vec3.zero⟩))) ps

/-- The entity/component store: one flat array per field (modelled as a
total function over entity ids), plus per-component membership flags (set
by addComponent, consulted by queries) and the monotone id allocator. -/
structure WorldState where
  entities : List ℕ
  nextEid : ℕ
  hasPosition : ℕ → Bool
  hasVelocity : ℕ → Bool
  hasGenome : ℕ → Bool
  hasPhenotype : ℕ → Bool
  hasStomach : ℕ → Bool
  hasEnergy : ℕ → Bool
  hasMood : ℕ → Bool
  hasCultural : ℕ → Bool
  posX : ℕ → ℚ
  posY : ℕ → ℚ
  posZ : ℕ → ℚ
  velX : ℕ → ℚ
  velY : ℕ → ℚ
  velZ : ℕ → ℚ
  genomeId : ℕ → ℕ
  phenR : ℕ → ℚ
  phenG : ℕ → ℚ
  phenB : ℕ → ℚ
  phenSize : ℕ → ℚ
  stomachType : ℕ → ℕ
  stomachAmt : ℕ → ℚ
  energyCur : ℕ → ℚ
  energyMax : ℕ → ℚ
  happiness : ℕ → ℚ
  dancing : ℕ → ℕ

/-- defineQuery([Position, Velocity]) of systems.ts / boidsComputeSystem.ts. -/
def movementQuery (w : WorldState) : List ℕ :=
  w.entities.filter (fun e => w.hasPosition e && w.hasVelocity e)

/-- defineQuery([Stomach, Energy, Mood, Phenotype]) of metabolismSystem.ts. -/
def metabolismQuery (w : WorldState) : List ℕ :=
  w.entities.filter (fun e => w.hasStomach e && w.hasEnergy e && w.hasMood e && w.hasPhenotype e)

/-- defineQuery([Energy]) of foragingSystem.ts. -/
def foragingQuery (w : WorldState) : List ℕ :=
  w.entities.filter (fun e => w.hasEnergy e)

/-- defineQuery([Position, Energy, Mood]) of socialSystem.ts. -/
def socialQuery (w : WorldState) : List ℕ :=
  w.entities.filter (fun e => w.hasPosition e && w.hasEnergy e && w.hasMood e)

/-- defineQuery([Mood]) of festivalSystem.ts. -/
def moodQuery (w : WorldState) : List ℕ :=
  w.entities.filter (fun e => w.hasMood e)

/-- defineQuery([Position, Velocity, CulturalTag, Mood]) of festivalSystem.ts. -/
def festivalParticipantQuery (w : WorldState) : List ℕ :=
  w.entities.filter (fun e =>
    w.hasPosition e && w.hasVelocity e && w.hasCultural e && w.hasMood e)

/-- The sequential CPU fallback movementSystem of src/engine/systems.ts over
the world store: for each queried entity, Position += Velocity. -/
def movementSystemW (w : WorldState) : WorldState :=
  (movementQuery w).foldl (fun w e =>
    { w with
      posX := upd w.posX e (w.posX e + w.velX e)
      posY := upd w.posY e (w.posY e + w.velY e)
      posZ := upd w.posZ e (w.posZ e + w.velZ e) }) w

/-- Marshalling of one entity into a Particle, as in boidsComputeSystem.ts. -/
def particleOf (w : WorldState) (e : ℕ) : Particle :=
  ⟨⟨w.posX e, w.posY e, w.posZ e⟩, ⟨w.velX e, w.velY e, w.velZ e⟩⟩

/-- The GPU boids movement path of boidsComputeSystem.ts: marshal the
queried entities into the input buffer, run the kernel rule body per index
over that read-only snapshot, and write the results back. -/
def boidsSystemW (s : ℚ → ℚ) (w : WorldState) : WorldState :=
  let es := movementQuery w
  let ps := es.map (particleOf w)
  es.enum.foldl (fun w ⟨i, e⟩ =>
    let p := kernelStep s boidsConfig ps i
    { w with
      posX := upd w.posX e p.pos.x
      posY := upd w.posY e p.pos.y
      posZ := upd w.posZ e p.pos.z
      velX := upd w.velX e p.vel.x
      velY := upd w.velY e p.vel.y
      velZ := upd w.velZ e p.vel.z }) w

/-- JS truthiness of a possibly-undefined numeric rule field:
acts only when the field is present and non-zero. -/
def truthy (o : Option ℚ) : Bool :=
  match o with
  | none => false
  | some v => decide (v ≠ 0)

/-- The effect record of an evolution (digestion) rule, metabolismSystem.ts. -/
structure EvolutionEffect where
  energyChange : Option ℚ
  moodHappinessChange : Option ℚ
  phenotypeRChange : Option ℚ
  phenotypeGChange : Option ℚ
  phenotypeBChange : Option ℚ
  phenotypeSizeChange : Option ℚ
deriving Repr

/-- An evolution rule: trigger food type plus scaled effects. -/
structure EvolutionRule where
  ruleName : String
  foodType : String
  effect : EvolutionEffect
deriving Repr

/-- FOOD_TYPE_MAP of metabolismSystem.ts: only "sweet" ↦ 1. -/
def foodTypeMap : List (String × ℕ) := [("sweet", 1)]

/-- The reverse lookup loop over Object.entries(FOOD_TYPE_MAP): the first
name whose id matches, else the empty string. -/
def foodNameOfId (t : ℕ) : String :=
  ((foodTypeMap.find? (fun p => p.2 = t)).map (fun p => p.1)).getD ""

/-- Application of a matched digestion rule's effects, scaled by the stomach
amount, in source order (energy, mood, phenotype r/g/b/size), with the
clamps of metabolismSystem.ts. -/
def digestApply (rule : EvolutionRule) (amt : ℚ) (e : ℕ) (w : WorldState) : WorldState :=
  let w1 := if truthy rule.effect.energyChange then
      let v := w.energyCur e + rule.effect.energyChange.getD 0 * amt
      let v2 := if v > w.energyMax e then w.energyMax e else v
      { w with energyCur := upd w.energyCur e v2 }
    else w
  let w2 := if truthy rule.effect.moodHappinessChange then
      let m := w1.happiness e + rule.effect.moodHappinessChange.getD 0 * amt
      { w1 with happiness := upd w1.happiness e (jsClamp (-1) 1 m) }
    else w1
  let w3 := match rule.effect.phenotypeRChange with
    | some d => { w2 with phenR := upd w2.phenR e (jsMax 0 (jsMin 1 (w2.phenR e + d * amt))) }
    | none => w2
  let w4 := match rule.effect.phenotypeGChange with
    | some d => { w3 with phenG := upd w3.phenG e (jsMax 0 (jsMin 1 (w3.phenG e + d * amt))) }
    | none => w3
  let w5 := match rule.effect.phenotypeBChange with
    | some d => { w4 with phenB := upd w4.phenB e (jsMax 0 (jsMin 1 (w4.phenB e + d * amt))) }
    | none => w4
  match rule.effect.phenotypeSizeChange with
  | some d => { w5 with phenSize := upd w5.phenSize e (jsMax (1/10) (w5.phenSize e + d * amt)) }
  | none => w5

/-- One entity's metabolism step (metabolismSystem.ts loop body): basal drain
floored at 0, then all-or-nothing digestion of the stomach contents. -/
def metabolismEntity (rules : List EvolutionRule) (w : WorldState) (e : ℕ) : WorldState :=
  let cur := w.energyCur e - 5 / 100
  let cur2 := if cur < 0 then 0 else cur
  let wA := { w with energyCur := upd w.energyCur e cur2 }
  let t := wA.stomachType e
  let amt := wA.stomachAmt e
  if t > 0 ∧ amt > 0 then
    let name := foodNameOfId t
    let wB := if name ≠ "" then
        match rules.find? (fun r => r.foodType = name) with
        | some rule => digestApply rule amt e wA
        | none => wA
      else wA
    { wB with
      stomachType := upd wB.stomachType e 0
      stomachAmt := upd wB.stomachAmt e 0 }
  else wA

/-- metabolismSystem of metabolismSystem.ts: the per-entity step folded over
the metabolism query snapshot. -/
def metabolismSystem (rules : List EvolutionRule) (w : WorldState) : WorldState :=
  (metabolismQuery w).foldl (metabolismEntity rules) w

/-- feedCreature of metabolismSystem.ts: place food in the stomach when the
food type is known (the Stomach slot of any in-range entity id is a defined
typed-array element, so that guard is always satisfied here). -/
def feedCreature (e : ℕ) (foodType : String) (amt : ℚ) (w : WorldState) : WorldState :=
  match foodTypeMap.find? (fun p => p.1 = foodType) with
  | some pr =>
      if pr.2 ≠ 0 then
        { w with
          stomachType := upd w.stomachType e pr.2
          stomachAmt := upd w.stomachAmt e amt }
      else w
  | none => w

/-- foragingSystem of foragingSystem.ts: per queried entity, an independent
Bernoulli trial (Math.random() < 0.01 modelled by the oracle roll); on
success feed 1 unit of "sweet". -/
def foragingSystem (roll : ℕ → Bool) (w : WorldState) : WorldState :=
  (foragingQuery w).foldl (fun w e => if roll e then feedCreature e "sweet" 1 w else w) w

/-- Lookup in a JS Map modelled as an association list (first match). -/
def jsMapGet {κ α : Type} [DecidableEq κ] (m : List (κ × α)) (k : κ) : Option α :=
  (m.find? (fun p => p.1 = k)).map (fun p => p.2)

/-- JS Map.set: replace in place when the key is present, else append
(JS Maps iterate in insertion order). -/
def jsMapSet {κ α : Type} [DecidableEq κ] (m : List (κ × α)) (k : κ) (v : α) : List (κ × α) :=
  if m.any (fun p => p.1 = k) then
    m.map (fun p => if p.1 = k then (k, v) else p)
  else m ++ [(k, v)]

/-- JS Set-based de-duplication: keep the first occurrence of each element. -/
def jsDedup (l : List ℕ) : List ℕ :=
  l.foldl (fun acc x => if x ∈ acc then acc else acc ++ [x]) []

/-- The relationshipStrengths structure of socialSystem.ts:
Map initiator ↦ Map target ↦ strength. -/
def RelMap : Type := List (ℕ × List (ℕ × ℚ))

instance : DecidableEq RelMap := by
  unfold RelMap
  infer_instance

instance : Membership (ℕ × List (ℕ × ℚ)) RelMap := by
  unfold RelMap
  infer_instance

/-- getRelationshipStrength of socialSystem.ts: stored value with the
JS-style default (inner.get(target) or 0, and 0 when the initiator has no
stored relations). -/
def getRelationshipStrength (rel : RelMap) (a b : ℕ) : ℚ :=
  match jsMapGet rel a with
  | some inner => (jsMapGet inner b).getD 0
  | none => 0

/-- The relationshipStrengths.has/set-if-absent preamble of
updateRelationshipStrength: ensure the key has an (initially empty) inner
map. -/
def ensureEntry (rel : RelMap) (k : ℕ) : RelMap :=
  if (jsMapGet rel k).isSome then rel else jsMapSet rel k []

/-- updateRelationshipStrength of socialSystem.ts: ensure both entries
exist, clamp the changed strength to [-1, 1], and store it in both
directions (writes sequenced exactly as in the source, so the aliasing
case a = b is captured by re-reading b's inner map after the first
write). -/
def updateRelationshipStrength (rel : RelMap) (a b : ℕ) (change : ℚ) : RelMap :=
  let rel2 := ensureEntry (ensureEntry rel a) b
  let cur := (jsMapGet ((jsMapGet rel2 a).getD []) b).getD 0
  let newS := jsClamp (-1) 1 (cur + change)
  let rel3 := jsMapSet rel2 a (jsMapSet ((jsMapGet rel2 a).getD []) b newS)
  jsMapSet rel3 b (jsMapSet ((jsMapGet rel3 b).getD []) a newS)

/-- initializeSocialState of socialSystem.ts: clear the relationship map. -/
def initializeSocialState : RelMap := []

/-- setRelationshipStrengths of socialSystem.ts: clear and repopulate from
the given map, copying each inner map (an identity copy in this model). -/
def setRelationshipStrengths (newRel : RelMap) : RelMap :=
  newRel.map (fun p => (p.1, p.2))

/-- A social rule of social.json as parsed by socialSystem.ts. -/
structure SocialRule where
  verb : String
  distance_lt : Option ℚ
  relationship_gt : Option ℚ
  targetMoodHappinessChange : Option ℚ
  initiatorEnergyChange : Option ℚ
  relationshipChange : Option ℚ
deriving Repr

/-- Precondition evaluation of socialSystem.ts: exact squared-distance
comparison against distance_lt and relationship lookup (defaulting to 0)
against relationship_gt. -/
def preconditionsHold (rule : SocialRule) (w : WorldState) (rel : RelMap) (i t : ℕ) : Bool :=
  let distOk :=
    match rule.distance_lt with
    | some dlt =>
        let dX := w.posX i - w.posX t
        let dY := w.posY i - w.posY t
        let dZ := w.posZ i - w.posZ t
        !decide (dX * dX + dY * dY + dZ * dZ ≥ dlt * dlt)
    | none => true
  distOk &&
    (match rule.relationship_gt with
     | some rgt => !decide (getRelationshipStrength rel i t ≤ rgt)
     | none => true)

/-- Effect application of socialSystem.ts in source order: target mood
(clamped to [-1,1]), initiator energy (clamped below at 0), then the
symmetric relationship update. -/
def applyEffects (rule : SocialRule) (w : WorldState) (rel : RelMap) (i t : ℕ) :
    WorldState × RelMap :=
  let w1 := if truthy rule.targetMoodHappinessChange then
      let h := w.happiness t + rule.targetMoodHappinessChange.getD 0
      { w with happiness := upd w.happiness t (jsClamp (-1) 1 h) }
    else w
  let w2 := if truthy rule.initiatorEnergyChange then
      let v := w1.energyCur i + rule.initiatorEnergyChange.getD 0
      { w1 with energyCur := upd w1.energyCur i (jsMax 0 v) }
    else w1
  let rel2 := if truthy rule.relationshipChange then
      updateRelationshipStrength rel i t (rule.relationshipChange.getD 0)
    else rel
  (w2, rel2)

/-- The rule loop of socialSystem.ts for one ordered (initiator, candidate)
pair: rules are scanned in declaration order, non-"Groom" rules are skipped
by the hardcoded verb check, and the loop breaks after the first rule whose
preconditions hold has had its effects applied. -/
def applyRulesForPair (rules : List SocialRule) (w : WorldState) (rel : RelMap) (i t : ℕ) :
    WorldState × RelMap :=
  match rules with
  | [] => (w, rel)
  | r :: rest =>
      if r.verb = "Groom" then
        if preconditionsHold r w rel i t then applyEffects r w rel i t
        else applyRulesForPair rest w rel i t
      else applyRulesForPair rest w rel i t

/-- Grid cell coordinates, socialSystem.ts getCellCoords:
floor((coord − worldMin) / cellSize) with worldMin = −60, cellSize = 5. -/
def getCellCoords (x y z : ℚ) : ℤ × ℤ × ℤ :=
  (⌊(x - (-60)) / 5⌋, ⌊(y - (-60)) / 5⌋, ⌊(z - (-60)) / 5⌋)

/-- The spatial grid: cell triple (the string key cx_cy_cz encodes it
injectively) ↦ occupant list. -/
def SpatialGrid : Type := List ((ℤ × ℤ × ℤ) × List ℕ)

/-- updateSpatialGrid of socialSystem.ts: clear, then push each queried
entity into its cell's list. -/
def updateSpatialGrid (es : List ℕ) (w : WorldState) : SpatialGrid :=
  es.foldl (fun g e =>
    let c := getCellCoords (w.posX e) (w.posY e) (w.posZ e)
    jsMapSet g c (((jsMapGet g c).getD []) ++ [e])) []

/-- The cell offset range −r..r of the JS for loops (empty when r < 0). -/
def loopRange (r : ℤ) : List ℤ :=
  if r < 0 then [] else (List.range (2 * r.toNat + 1)).map (fun i => (i : ℤ) - r)

/-- getNearbyEntities of socialSystem.ts: union the occupants of all cells
within ceil(radius / cellSize) cells of the initiator's cell (dz, dy, dx
loop nesting as in the source), excluding the initiator, de-duplicated with
first-occurrence order. -/
def getNearbyEntities (g : SpatialGrid) (w : WorldState) (e : ℕ) (queryRadius : ℚ) : List ℕ :=
  let c := getCellCoords (w.posX e) (w.posY e) (w.posZ e)
  let cqr : ℤ := ⌈queryRadius / 5⌉
  let collected := (loopRange cqr).foldl (fun acc dz =>
    (loopRange cqr).foldl (fun acc dy =>
      (loopRange cqr).foldl (fun acc dx =>
        acc ++ (((jsMapGet g (c.1 + dx, c.2.1 + dy, c.2.2 + dz)).getD []).filter
          (fun t => t ≠ e))) acc) acc) []
  jsDedup collected

/-- MAX_SOCIAL_INTERACTION_RADIUS of socialSystem.ts. -/
def maxSocialInteractionRadius : ℚ := 2

/-- socialSystem of socialSystem.ts: rebuild the spatial grid from the
social query, then for each initiator fetch broad-phase candidates and run
the per-pair rule loop. -/
def socialSystem (rules : List SocialRule) (w : WorldState) (rel : RelMap) :
    WorldState × RelMap :=
  let es := socialQuery w
  let grid := updateSpatialGrid es w
  es.foldl (fun st i =>
    let nearby := getNearbyEntities grid st.1 i maxSocialInteractionRadius
    nearby.foldl (fun st t => applyRulesForPair rules st.1 st.2 i t) st) (w, rel)

/-- The four festival scalars of festivalSystem.ts. -/
structure FestivalState where
  ticksWithHighHappiness : ℕ
  isSpiralDanceActive : Bool
  festivalEndTick : ℕ
  currentTick : ℕ
deriving DecidableEq, Repr

/-- initializeFestivalState of festivalSystem.ts. -/
def initializeFestivalState : FestivalState :=
  { ticksWithHighHappiness := 0
    isSpiralDanceActive := false
    festivalEndTick := 0
    currentTick := 0 }

/-- The irrational float intrinsics used by the festival dance, passed in
as opaque parameters of the model. -/
structure TrigOracle where
  sqrtQ : ℚ → ℚ
  sinQ : ℚ → ℚ
  cosQ : ℚ → ℚ
  atan2Q : ℚ → ℚ → ℚ

/-- One dancer's velocity override of festivalSystem.ts: steer toward the
next point of the expanding rotating spiral (SPIRAL_SPEED 1.5, growth 0.1
damped by 1/(radius+1) and the extra 0.1 factor, rotation 0.05, radius
floored at 1), or zero the velocity within the 0.1 tolerance. -/
def danceStep (trig : TrigOracle) (fs : FestivalState) (w : WorldState) (e : ℕ) : WorldState :=
  let posX := w.posX e
  let posZ := w.posZ e
  let dX := posX - 0
  let dZ := posZ - 0
  let angle0 := trig.atan2Q dZ dX
  let radius0 := trig.sqrtQ (dX * dX + dZ * dZ)
  let angle := angle0 + 5 / 100
  let radius1 := radius0 + (1 / 10) * (1 / (radius0 + 1)) * (1 / 10)
  let radius := jsMax 1 radius1
  let targetX := 0 + radius * trig.cosQ angle
  let targetZ := 0 + radius * trig.sinQ angle
  let targetY := 0 + trig.sinQ (angle * 5 + (fs.currentTick : ℚ) * (1 / 10)) * 5
  let dirX := targetX - posX
  let dirY := targetY - w.posY e
  let dirZ := targetZ - posZ
  let distT := trig.sqrtQ (dirX * dirX + dirY * dirY + dirZ * dirZ)
  if distT > 1 / 10 then
    let invD := (3 / 2) / distT
    { w with
      velX := upd w.velX e (dirX * invD)
      velY := upd w.velY e (dirY * invD)
      velZ := upd w.velZ e (dirZ * invD) }
  else
    { w with
      velX := upd w.velX e 0
      velY := upd w.velY e 0
      velZ := upd w.velZ e 0 }

/-- festivalSystem of festivalSystem.ts: increment the internal tick
counter, bail out when no entity holds Mood, otherwise run the
threshold/streak state machine (threshold 0.8, streak 300 ticks, duration
600 ticks, hysteresis 0.8 × 0.7) and move the dancers while active. -/
def festivalSystem (trig : TrigOracle) (w : WorldState) (fs : FestivalState) :
    WorldState × FestivalState :=
  let fs1 := { fs with currentTick := fs.currentTick + 1 }
  let moodEs := moodQuery w
  if moodEs.length = 0 then (w, fs1)
  else
    let total := moodEs.foldl (fun s e => s + w.happiness e) 0
    let avg := total / (moodEs.length : ℚ)
    let st1 :=
      if ¬ fs1.isSpiralDanceActive then
        if avg > 8 / 10 then
          let fs2 := { fs1 with ticksWithHighHappiness := fs1.ticksWithHighHappiness + 1 }
          if fs2.ticksWithHighHappiness ≥ 300 then
            let fs3 := { fs2 with
              isSpiralDanceActive := true
              festivalEndTick := fs2.currentTick + 600
              ticksWithHighHappiness := 0 }
            let parts := festivalParticipantQuery w
            (parts.foldl (fun w e => { w with dancing := upd w.dancing e 1 }) w, fs3)
          else (w, fs2)
        else (w, { fs1 with ticksWithHighHappiness := 0 })
      else
        if fs1.currentTick ≥ fs1.festivalEndTick ∨ avg < (8 / 10) * (7 / 10) then
          let fs2 := { fs1 with isSpiralDanceActive := false }
          ((festivalParticipantQuery w).foldl
            (fun w e => { w with dancing := upd w.dancing e 0 }) w, fs2)
        else (w, fs1)
    if st1.2.isSpiralDanceActive then
      let dancers := festivalParticipantQuery st1.1
      (dancers.foldl (fun w e => if w.dancing e = 1 then danceStep trig st1.2 w e else w)
        st1.1, st1.2)
    else st1

/-- One tick's worth of systems in the scheduler's fixed order
(Movement → Metabolism → Foraging → Social → Festival), with the movement
strategy selected by the gpu flag as in engineTick of the engine loop. -/
def engineTick (gpu : Bool) (s : ℚ → ℚ) (trig : TrigOracle) (roll : ℕ → Bool)
    (evoRules : List EvolutionRule) (socRules : List SocialRule)
    (w : WorldState) (rel : RelMap) (fs : FestivalState) :
    WorldState × RelMap × FestivalState :=
  let w1 := if gpu then boidsSystemW s w else movementSystemW w
  let w2 := metabolismSystem evoRules w1
  let w3 := foragingSystem roll w2
  let st := socialSystem socRules w3 rel
  let st2 := festivalSystem trig st.1 fs
  (st2.1, st.2, st2.2)

/-- TICK_INTERVAL of loop.ts: 1000 / TICK_RATE with TICK_RATE = 10 Hz. -/
def tickInterval : ℚ := 1000 / 10

/-- Truncation toward zero, as used by the JS remainder operator. -/
def jsTrunc (q : ℚ) : ℤ :=
  if 0 ≤ q then ⌊q⌋ else ⌈q⌉

/-- The JS % operator on numbers: a − b · trunc(a / b). -/
def jsFmod (a b : ℚ) : ℚ :=
  a - b * (jsTrunc (a / b) : ℚ)

/-- One invocation of gameLoop (loop.ts) with the clock reading now:
returns the new lastTickTime and whether engineTick ran.  When
deltaTime ≥ TICK_INTERVAL, exactly one engineTick runs and
lastTickTime := currentTime − (deltaTime % TICK_INTERVAL). -/
def gameLoopStep (lastTickTime now : ℚ) : ℚ × Bool :=
  let deltaTime := now - lastTickTime
  if deltaTime ≥ tickInterval then
    (now - jsFmod deltaTime tickInterval, true)
  else
    (lastTickTime, false)

/-- The per-property arrays of the persisted components, each sliced to
maxEid slots at save time (persistence.ts, ComponentsToPersist order). -/
structure SavedComponents where
  posX : List ℚ
  posY : List ℚ
  posZ : List ℚ
  velX : List ℚ
  velY : List ℚ
  velZ : List ℚ
  genomeId : List ℕ
  phenR : List ℚ
  phenG : List ℚ
  phenB : List ℚ
  phenSize : List ℚ
  stomachType : List ℕ
  stomachAmt : List ℚ
  energyCur : List ℚ
  energyMax : List ℚ
  happiness : List ℚ
  dancing : List ℕ

/-- The ISavedWorldState blob of persistence.ts.  The deflate/JSON encoding
is a bijective transport performed by external libraries and is elided:
the model stores the decoded object that the save path would serialize. -/
structure SavedState where
  nextEid : ℕ
  eids : List ℕ
  deleted : List ℕ
  components : SavedComponents
  relationships : RelMap
  festival : FestivalState
  timestamp : ℕ

/-- Array.from(typedArray).slice(0, maxEid): the dense per-slot values of a
component array, for every entity id below maxEid. -/
def sliceArrQ (f : ℕ → ℚ) (n : ℕ) : List ℚ := (List.range n).map f

/-- As sliceArrQ, for the integer typed arrays. -/
def sliceArrN (f : ℕ → ℕ) (n : ℕ) : List ℕ := (List.range n).map f

/-- The component payload written by saveState: every persisted property
array sliced to maxEid = nextEid slots. -/
def savedComponents (w : WorldState) : SavedComponents :=
  { posX := sliceArrQ w.posX w.nextEid
    posY := sliceArrQ w.posY w.nextEid
    posZ := sliceArrQ w.posZ w.nextEid
    velX := sliceArrQ w.velX w.nextEid
    velY := sliceArrQ w.velY w.nextEid
    velZ := sliceArrQ w.velZ w.nextEid
    genomeId := sliceArrN w.genomeId w.nextEid
    phenR := sliceArrQ w.phenR w.nextEid
    phenG := sliceArrQ w.phenG w.nextEid
    phenB := sliceArrQ w.phenB w.nextEid
    phenSize := sliceArrQ w.phenSize w.nextEid
    stomachType := sliceArrN w.stomachType w.nextEid
    stomachAmt := sliceArrQ w.stomachAmt w.nextEid
    energyCur := sliceArrQ w.energyCur w.nextEid
    energyMax := sliceArrQ w.energyMax w.nextEid
    happiness := sliceArrQ w.happiness w.nextEid
    dancing := sliceArrN w.dancing w.nextEid }

/-- saveState of persistence.ts: dense component arrays sliced to
maxEid = nextEid, the live eid list, the (always empty) deleted list, the
relationship map in insertion order, and the four festival scalars. -/
def saveState (w : WorldState) (rel : RelMap) (fs : FestivalState) (ts : ℕ) : SavedState :=
  { nextEid := w.nextEid
    eids := w.entities.take w.nextEid
    deleted := []
    components := savedComponents w
    relationships := rel
    festival := fs
    timestamp := ts }

/-- resetWorld(world): every entity and component slot cleared, the id
allocator back at 0. -/
def emptyWorld : WorldState :=
  { entities := []
    nextEid := 0
    hasPosition := fun _ => false
    hasVelocity := fun _ => false
    hasGenome := fun _ => false
    hasPhenotype := fun _ => false
    hasStomach := fun _ => false
    hasEnergy := fun _ => false
    hasMood := fun _ => false
    hasCultural := fun _ => false
    posX := fun _ => 0
    posY := fun _ => 0
    posZ := fun _ => 0
    velX := fun _ => 0
    velY := fun _ => 0
    velZ := fun _ => 0
    genomeId := fun _ => 0
    phenR := fun _ => 0
    phenG := fun _ => 0
    phenB := fun _ => 0
    phenSize := fun _ => 0
    stomachType := fun _ => 0
    stomachAmt := fun _ => 0
    energyCur := fun _ => 0
    energyMax := fun _ => 0
    happiness := fun _ => 0
    dancing := fun _ => 0 }

/-- The oldToNewEidMap construction of loadState: for each saved eid below
the saved nextEid (in saved order), addEntity yields the next fresh id of
the reset world (0, 1, 2, ...).  Returns the map and the number of created
entities. -/
def buildEidMap (eids : List ℕ) (nextEid : ℕ) : List (ℕ × ℕ) × ℕ :=
  eids.foldl (fun st old =>
    if old < nextEid then (jsMapSet st.1 old st.2, st.2 + 1) else st) ([], 0)

/-- One old-to-new pair of the Position restore: addComponent plus per-prop
copy when any prop holds data at the old id (persistence.ts, step 4). -/
def restorePositionEntry (c : SavedComponents) (w : WorldState) (p : ℕ × ℕ) : WorldState :=
  if (c.posX.get? p.1).isSome ∨ (c.posY.get? p.1).isSome ∨ (c.posZ.get? p.1).isSome then
    let w1 := { w with hasPosition := upd w.hasPosition p.2 true }
    let w2 := match c.posX.get? p.1 with
      | some v => { w1 with posX := upd w1.posX p.2 v }
      | none => w1
    let w3 := match c.posY.get? p.1 with
      | some v => { w2 with posY := upd w2.posY p.2 v }
      | none => w2
    match c.posZ.get? p.1 with
    | some v => { w3 with posZ := upd w3.posZ p.2 v }
    | none => w3
  else w

/-- Component restore for the Position arrays. -/
def restorePosition (c : SavedComponents) (eidMap : List (ℕ × ℕ)) (w : WorldState) : WorldState :=
  eidMap.foldl (restorePositionEntry c) w

/-- One old-to-new pair of the Velocity restore. -/
def restoreVelocityEntry (c : SavedComponents) (w : WorldState) (p : ℕ × ℕ) : WorldState :=
  if (c.velX.get? p.1).isSome ∨ (c.velY.get? p.1).isSome ∨ (c.velZ.get? p.1).isSome then
    let w1 := { w with hasVelocity := upd w.hasVelocity p.2 true }
    let w2 := match c.velX.get? p.1 with
      | some v => { w1 with velX := upd w1.velX p.2 v }
      | none => w1
    let w3 := match c.velY.get? p.1 with
      | some v => { w2 with velY := upd w2.velY p.2 v }
      | none => w2
    match c.velZ.get? p.1 with
    | some v => { w3 with velZ := upd w3.velZ p.2 v }
    | none => w3
  else w

/-- Component restore for the Velocity arrays. -/
def restoreVelocity (c : SavedComponents) (eidMap : List (ℕ × ℕ)) (w : WorldState) : WorldState :=
  eidMap.foldl (restoreVelocityEntry c) w

/-- One old-to-new pair of the Genome restore. -/
def restoreGenomeEntry (c : SavedComponents) (w : WorldState) (p : ℕ × ℕ) : WorldState :=
  if (c.genomeId.get? p.1).isSome then
    let w1 := { w with hasGenome := upd w.hasGenome p.2 true }
    match c.genomeId.get? p.1 with
    | some v => { w1 with genomeId := upd w1.genomeId p.2 v }
    | none => w1
  else w

/-- Component restore for the Genome array. -/
def restoreGenome (c : SavedComponents) (eidMap : List (ℕ × ℕ)) (w : WorldState) : WorldState :=
  eidMap.foldl (restoreGenomeEntry c) w

/-- One old-to-new pair of the Phenotype restore. -/
def restorePhenotypeEntry (c : SavedComponents) (w : WorldState) (p : ℕ × ℕ) : WorldState :=
  if (c.phenR.get? p.1).isSome ∨ (c.phenG.get? p.1).isSome ∨ (c.phenB.get? p.1).isSome ∨
      (c.phenSize.get? p.1).isSome then
    let w1 := { w with hasPhenotype := upd w.hasPhenotype p.2 true }
    let w2 := match c.phenR.get? p.1 with
      | some v => { w1 with phenR := upd w1.phenR p.2 v }
      | none => w1
    let w3 := match c.phenG.get? p.1 with
      | some v => { w2 with phenG := upd w2.phenG p.2 v }
      | none => w2
    let w4 := match c.phenB.get? p.1 with
      | some v => { w3 with phenB := upd w3.phenB p.2 v }
      | none => w3
    match c.phenSize.get? p.1 with
    | some v => { w4 with phenSize := upd w4.phenSize p.2 v }
    | none => w4
  else w

/-- Component restore for the Phenotype arrays. -/
def restorePhenotype (c : SavedComponents) (eidMap : List (ℕ × ℕ)) (w : WorldState) : WorldState :=
  eidMap.foldl (restorePhenotypeEntry c) w

/-- One old-to-new pair of the Stomach restore. -/
def restoreStomachEntry (c : SavedComponents) (w : WorldState) (p : ℕ × ℕ) : WorldState :=
  if (c.stomachType.get? p.1).isSome ∨ (c.stomachAmt.get? p.1).isSome then
    let w1 := { w with hasStomach := upd w.hasStomach p.2 true }
    let w2 := match c.stomachType.get? p.1 with
      | some v => { w1 with stomachType := upd w1.stomachType p.2 v }
      | none => w1
    match c.stomachAmt.get? p.1 with
    | some v => { w2 with stomachAmt := upd w2.stomachAmt p.2 v }
    | none => w2
  else w

/-- Component restore for the Stomach arrays. -/
def restoreStomach (c : SavedComponents) (eidMap : List (ℕ × ℕ)) (w : WorldState) : WorldState :=
  eidMap.foldl (restoreStomachEntry c) w

/-- One old-to-new pair of the Energy restore. -/
def restoreEnergyEntry (c : SavedComponents) (w : WorldState) (p : ℕ × ℕ) : WorldState :=
  if (c.energyCur.get? p.1).isSome ∨ (c.energyMax.get? p.1).isSome then
    let w1 := { w with hasEnergy := upd w.hasEnergy p.2 true }
    let w2 := match c.energyCur.get? p.1 with
      | some v => { w1 with energyCur := upd w1.energyCur p.2 v }
      | none => w1
    match c.energyMax.get? p.1 with
    | some v => { w2 with energyMax := upd w2.energyMax p.2 v }
    | none => w2
  else w

/-- Component restore for the Energy arrays. -/
def restoreEnergy (c : SavedComponents) (eidMap : List (ℕ × ℕ)) (w : WorldState) : WorldState :=
  eidMap.foldl (restoreEnergyEntry c) w

/-- One old-to-new pair of the Mood restore. -/
def restoreMoodEntry (c : SavedComponents) (w : WorldState) (p : ℕ × ℕ) : WorldState :=
  if (c.happiness.get? p.1).isSome then
    let w1 := { w with hasMood := upd w.hasMood p.2 true }
    match c.happiness.get? p.1 with
    | some v => { w1 with happiness := upd w1.happiness p.2 v }
    | none => w1
  else w

/-- Component restore for the Mood array. -/
def restoreMood (c : SavedComponents) (eidMap : List (ℕ × ℕ)) (w : WorldState) : WorldState :=
  eidMap.foldl (restoreMoodEntry c) w

/-- One old-to-new pair of the CulturalTag restore. -/
def restoreCulturalEntry (c : SavedComponents) (w : WorldState) (p : ℕ × ℕ) : WorldState :=
  if (c.dancing.get? p.1).isSome then
    let w1 := { w with hasCultural := upd w.hasCultural p.2 true }
    match c.dancing.get? p.1 with
    | some v => { w1 with dancing := upd w1.dancing p.2 v }
    | none => w1
  else w

/-- Component restore for the CulturalTag array. -/
def restoreCultural (c : SavedComponents) (eidMap : List (ℕ × ℕ)) (w : WorldState) : WorldState :=
  eidMap.foldl (restoreCulturalEntry c) w

/-- Steps 4 of loadState: restore every persisted component in
ComponentsToPersist order. -/
def restoreAllComponents (c : SavedComponents) (eidMap : List (ℕ × ℕ)) (w : WorldState) :
    WorldState :=
  restoreCultural c eidMap (restoreMood c eidMap (restoreEnergy c eidMap
    (restoreStomach c eidMap (restorePhenotype c eidMap (restoreGenome c eidMap
      (restoreVelocity c eidMap (restorePosition c eidMap w)))))))

/-- One target entry of the relationship remap: re-key the target through
the old-to-new map, dropping targets that are not in the map. -/
def remapInnerStep (eidMap : List (ℕ × ℕ)) (inner : List (ℕ × ℚ)) (q : ℕ × ℚ) :
    List (ℕ × ℚ) :=
  match jsMapGet eidMap q.1 with
  | some newTgt => jsMapSet inner newTgt q.2
  | none => inner

/-- One initiator entry of the relationship remap: re-key the initiator,
rebuild its inner map, and drop it when the remapped inner map is empty. -/
def remapOuterStep (eidMap : List (ℕ × ℕ)) (newRel : RelMap) (pr : ℕ × List (ℕ × ℚ)) :
    RelMap :=
  match jsMapGet eidMap pr.1 with
  | some newInit =>
      let newInner := pr.2.foldl (remapInnerStep eidMap) []
      if newInner.length > 0 then jsMapSet newRel newInit newInner else newRel
  | none => newRel

/-- The relationship remap of loadState step 5: keep exactly the entries
whose endpoints are both in the eid map, rebuilt in saved order, dropping
initiators whose remapped inner map is empty. -/
def remapRelationships (eidMap : List (ℕ × ℕ)) (rels : RelMap) : RelMap :=
  rels.foldl (remapOuterStep eidMap) []

/-- loadState of persistence.ts over the abstract store (db = the blob
under the worldState key, or none).  With no snapshot: report failure and
default-initialize the social and festival systems, leaving the world
untouched.  With a snapshot: reset the world, re-create one entity per
saved live eid (building the old-to-new id map), restore components and
the remapped relationship graph, set the four festival scalars (the
source's value-or-0 defaults are identity here), and report success. -/
def loadState (w : WorldState) (db : Option SavedState) :
    WorldState × RelMap × FestivalState × Bool :=
  match db with
  | none => (w, initializeSocialState, initializeFestivalState, false)
  | some s =>
      let w0 := emptyWorld
      if s.eids.length > 0 then
        let mp := buildEidMap s.eids s.nextEid
        let w1 := { w0 with entities := List.range mp.2, nextEid := mp.2 }
        let w2 := restoreAllComponents s.components mp.1 w1
        let rel2 := setRelationshipStrengths (remapRelationships mp.1 s.relationships)
        (w2, rel2, s.festival, true)
      else
        (w0, initializeSocialState, initializeFestivalState, true)

section Helpers

/-- A fold preserves any property preserved by each step. -/
theorem foldl_preserve {α β : Type} (P : β → Prop) (g : β → α → β) :
    ∀ (l : List α) (b : β), P b → (∀ b a, P b → P (g b a)) → P (l.foldl g b) := by
  intro l
  induction l with
  | nil => intro b hb _; exact hb
  | cons a l ih =>
      intro b hb hstep
      exact ih (g b a) (hstep b a hb) hstep

theorem neg_one_le_jsClamp (x : ℚ) : -1 ≤ jsClamp (-1) 1 x := by
  simp [jsClamp, jsMax]

theorem jsClamp_le_one (x : ℚ) : jsClamp (-1) 1 x ≤ 1 := by
  simp only [jsClamp, jsMax, jsMin, max_le_iff, min_le_iff]
  exact ⟨by norm_num, Or.inl le_rfl⟩

end Helpers

/-- A trigonometry/sqrt oracle whose value is never consulted by the
theorems that use it (constant zero). -/
def trigZero : TrigOracle := ⟨fun _ => 0, fun _ => 0, fun _ => 0, fun _ _ => 0⟩

/-- A sqrt oracle whose value is never consulted by the theorems that use
it (constant zero). -/
def sqrtZero : ℚ → ℚ := fun _ => 0

/-- C4 counterexample input: the boundary point +halfExtent on the x axis
for the default 100-unit world. -/
def posAtBoundary : Vec3 := ⟨50, 0, 0⟩

/-- C4, counterexample.  With world size 100 (halfExtent 50), a position
component exactly equal to +halfExtent is left unchanged by wrap_around
(the test uses strict greater-than), so it does not wrap to −halfExtent as
the claim states. -/
theorem wrap_exact_boundary_counterexample :
    (wrapAround 100 100 100 posAtBoundary).x = 50 ∧ (50 : ℚ) ≠ -50 := by
  constructor
  · norm_num [wrapAround, posAtBoundary]
  · norm_num

/-- C4, amended: on each axis, a position in [−halfExtent, +halfExtent]
(hence also one exactly at +halfExtent, and one at 0.999 × halfExtent) is
left unchanged by wrap_around, while a position strictly greater than
+halfExtent wraps to −halfExtent. -/
theorem wrap_boundary_behavior (sx sy sz : ℚ) (p : Vec3)
    (hx : 0 ≤ sx) (hy : 0 ≤ sy) (hz : 0 ≤ sz) :
    ((-(sx * (1 / 2)) ≤ p.x ∧ p.x ≤ sx * (1 / 2)) → (wrapAround sx sy sz p).x = p.x) ∧
    (sx * (1 / 2) < p.x → (wrapAround sx sy sz p).x = -(sx * (1 / 2))) ∧
    ((-(sy * (1 / 2)) ≤ p.y ∧ p.y ≤ sy * (1 / 2)) → (wrapAround sx sy sz p).y = p.y) ∧
    (sy * (1 / 2) < p.y → (wrapAround sx sy sz p).y = -(sy * (1 / 2))) ∧
    ((-(sz * (1 / 2)) ≤ p.z ∧ p.z ≤ sz * (1 / 2)) → (wrapAround sx sy sz p).z = p.z) ∧
    (sz * (1 / 2) < p.z → (wrapAround sx sy sz p).z = -(sz * (1 / 2))) := by
  refine ⟨?_, ?_, ?_, ?_, ?_, ?_⟩
  · rintro ⟨h1, h2⟩
    simp only [wrapAround]
    rw [if_neg (show ¬(p.x < -(sx * (1 / 2))) from by linarith)]
    rw [if_neg (show ¬(p.x > sx * (1 / 2)) from by linarith)]
  · intro h
    simp only [wrapAround]
    rw [if_neg (show ¬(p.x < -(sx * (1 / 2))) from by linarith)]
    rw [if_pos (show p.x > sx * (1 / 2) from h)]
  · rintro ⟨h1, h2⟩
    simp only [wrapAround]
    rw [if_neg (show ¬(p.y < -(sy * (1 / 2))) from by linarith)]
    rw [if_neg (show ¬(p.y > sy * (1 / 2)) from by linarith)]
  · intro h
    simp only [wrapAround]
    rw [if_neg (show ¬(p.y < -(sy * (1 / 2))) from by linarith)]
    rw [if_pos (show p.y > sy * (1 / 2) from h)]
  · rintro ⟨h1, h2⟩
    simp only [wrapAround]
    rw [if_neg (show ¬(p.z < -(sz * (1 / 2))) from by linarith)]
    rw [if_neg (show ¬(p.z > sz * (1 / 2)) from by linarith)]
  · intro h
    simp only [wrapAround]
    rw [if_neg (show ¬(p.z < -(sz * (1 / 2))) from by linarith)]
    rw [if_pos (show p.z > sz * (1 / 2) from h)]

/-- Witness for wrap_boundary_behavior: with world size 100, the point
x = 49.95 = 0.999 × 50 stays, and z = 60 > 50 wraps to −50. -/
theorem wrap_boundary_behavior_witness :
    (wrapAround 100 100 100 ⟨999 / 20, 0, 60⟩).x = 999 / 20 ∧
    (wrapAround 100 100 100 ⟨999 / 20, 0, 60⟩).z = -50 := by
  have h := wrap_boundary_behavior 100 100 100 ⟨999 / 20, 0, 60⟩
    (by norm_num) (by norm_num) (by norm_num)
  refine ⟨?_, ?_⟩
  · have hx := h.1 ⟨by norm_num, by norm_num⟩
    exact hx
  · have hz := h.2.2.2.2.2 (by norm_num)
    rw [hz]; norm_num

/-- C5 counterexample.  With lastTickTime = 0 and a callback at 250 ms
(elapsed = 250 ≥ 100), one tick runs but lastTickTime becomes 200, not
0 + 100 as the claim's carry-the-full-remainder accumulator states: the
whole extra accumulated interval is dropped. -/
theorem gameLoop_remainder_counterexample :
    gameLoopStep 0 250 = (200, true) ∧ (200 : ℚ) ≠ 0 + tickInterval := by
  have hf : ⌊(250 : ℚ) / 100⌋ = 2 := by
    rw [Int.floor_eq_iff] <;> norm_num
  constructor
  · simp only [gameLoopStep, jsFmod, jsTrunc]
    rw [if_pos (by norm_num [tickInterval])]
    norm_num [tickInterval, hf]
  · norm_num [tickInterval]

/-- C5, amended.  On a callback where elapsed = now − lastTickTime is at
least the 100 ms tick interval, exactly one tick's worth of systems runs,
and lastTickTime advances by tickInterval · ⌊elapsed / tickInterval⌋: only
the sub-interval remainder elapsed mod tickInterval (< tickInterval) is
carried forward, so whole accumulated intervals beyond the one executed
tick are dropped rather than processed later. -/
theorem gameLoop_single_tick_accumulator (last now : ℚ) (h : tickInterval ≤ now - last) :
    (gameLoopStep last now).2 = true ∧
    (gameLoopStep last now).1 = last + tickInterval * ⌊(now - last) / tickInterval⌋ ∧
    now - (gameLoopStep last now).1 < tickInterval ∧
    tickInterval ≤ (gameLoopStep last now).1 - last := by
  have htick : (0 : ℚ) < tickInterval := by norm_num [tickInterval]
  have hpos : 0 ≤ (now - last) / tickInterval :=
    div_nonneg (by linarith) (le_of_lt htick)
  have htr : jsTrunc ((now - last) / tickInterval) = ⌊(now - last) / tickInterval⌋ := by
    simp [jsTrunc, hpos]
  have hstep : gameLoopStep last now =
      (now - jsFmod (now - last) tickInterval, true) := by
    simp [gameLoopStep, h]
  have hfmod : jsFmod (now - last) tickInterval =
      (now - last) - tickInterval * ⌊(now - last) / tickInterval⌋ := by
    simp [jsFmod, htr]
  have hone : (1 : ℚ) ≤ ((now - last) / tickInterval) := by
    rw [le_div_iff₀ htick]; linarith
  have hfl : (1 : ℤ) ≤ ⌊(now - last) / tickInterval⌋ :=
    Int.le_floor.mpr (by exact_mod_cast hone)
  refine ⟨by rw [hstep], ?_, ?_, ?_⟩
  · rw [hstep, hfmod]; ring
  · rw [hstep, hfmod]
    have hlt := Int.lt_floor_add_one ((now - last) / tickInterval)
    have h2 : (now - last) < tickInterval * (⌊(now - last) / tickInterval⌋ + 1) := by
      have := (div_lt_iff₀ htick).mp hlt
      push_cast at this ⊢
      linarith
    push_cast at h2
    linarith
  · rw [hstep, hfmod]
    have h3 : (tickInterval : ℚ) * 1 ≤ tickInterval * ⌊(now - last) / tickInterval⌋ := by
      have hc : ((1 : ℤ) : ℚ) ≤ (⌊(now - last) / tickInterval⌋ : ℚ) := by exact_mod_cast hfl
      nlinarith
    linarith

/-- Witness for gameLoop_single_tick_accumulator at lastTickTime = 0,
now = 250. -/
theorem gameLoop_single_tick_accumulator_witness :
    (gameLoopStep 0 250).2 = true ∧ (gameLoopStep 0 250).1 = 200 := by
  have h := gameLoop_single_tick_accumulator 0 250 (by norm_num [tickInterval])
  refine ⟨h.1, ?_⟩
  have hf : ⌊((250 : ℚ) - 0) / tickInterval⌋ = 2 := by
    rw [show ((250 : ℚ) - 0) / tickInterval = 250 / 100 by norm_num [tickInterval]]
    rw [Int.floor_eq_iff] <;> norm_num
  have h2 := h.2.1
  rw [h2, hf]
  norm_num [tickInterval]

/-- C9 counterexample.  On a world with no Mood-bearing entity (and the
default-initialized festival state), one festival system invocation leaves
the internal tick counter at 1, not 0: the counter is incremented before
the empty-population check, so it does not stay unchanged as claimed. -/
theorem festival_tick_counter_counterexample :
    (festivalSystem trigZero emptyWorld initializeFestivalState).2.currentTick = 1 ∧
    (1 : ℕ) ≠ 0 := by
  constructor
  · rfl
  · decide

/-- C9, amended.  When no entity holds a Mood component, the festival
system invocation leaves all entity component data and the streak counter,
active flag and scheduled end tick unchanged, but it still increments the
internal tick counter by one (the increment precedes the
empty-population check). -/
theorem festival_skip_empty_population (trig : TrigOracle) (w : WorldState)
    (fs : FestivalState) (h : moodQuery w = []) :
    festivalSystem trig w fs = (w, { fs with currentTick := fs.currentTick + 1 }) := by
  simp [festivalSystem, h]

/-- Witness for festival_skip_empty_population on the empty world. -/
theorem festival_skip_empty_population_witness :
    festivalSystem trigZero emptyWorld initializeFestivalState =
      (emptyWorld, { initializeFestivalState with currentTick := 1 }) :=
  festival_skip_empty_population trigZero emptyWorld initializeFestivalState rfl

/-- Shifting the written index by one commutes a sequential in-place pass
with list cons (the CPU movement loop only touches slot i at iteration i). -/
theorem movement_step_shift (a : Particle) :
    ∀ (is : List ℕ) (l : List Particle),
      (is.map Nat.succ).foldl
        (fun acc i => acc.set i (cpuMoveEntity (acc.getD i ⟨Vec3.zero, Vec3.zero⟩))) (a :: l) =
      a :: is.foldl
        (fun acc i => acc.set i (cpuMoveEntity (acc.getD i ⟨Vec3.zero, Vec3.zero⟩))) l := by
  intro is
  induction is with
  | nil => intro l; rfl
  | cons i is ih =>
      intro l
      simp only [List.map_cons, List.foldl_cons]
      have hstep : (a :: l).set (i + 1)
          (cpuMoveEntity ((a :: l).getD (i + 1) ⟨Vec3.zero, Vec3.zero⟩)) =
          a :: l.set i (cpuMoveEntity (l.getD i ⟨Vec3.zero, Vec3.zero⟩)) := rfl
      rw [hstep, ih]

/-- C1, amended.  The sequential CPU fallback is plain per-entity Euler
integration: it maps every entity to Position + Velocity with Velocity
unchanged — equal to an independent per-entity map, so all reads for tick N
use only tick N−1 state — and it applies none of the kernel's steering
rules, force/speed clamps, delta_time scaling or toroidal wrap, hence it is
not behaviorally equivalent to the parallel flocking kernel. -/
theorem movement_fallback_plain_integration (ps : List Particle) :
    movementSystemList ps = ps.map cpuMoveEntity := by
  induction ps with
  | nil => rfl
  | cons p ps ih =>
      simp only [movementSystemList, List.length_cons, List.range_succ_eq_map,
        List.foldl_cons, List.map_cons]
      have h0 : (p :: ps).set 0 (cpuMoveEntity ((p :: ps).getD 0 ⟨Vec3.zero, Vec3.zero⟩)) =
          cpuMoveEntity p :: ps := rfl
      rw [h0, movement_step_shift]
      rw [show (List.range ps.length).foldl
        (fun acc i => acc.set i (cpuMoveEntity (acc.getD i ⟨Vec3.zero, Vec3.zero⟩))) ps =
        movementSystemList ps from rfl, ih]

/-- For a single particle within the speed clamp, the kernel body never
consults the sqrt intrinsic: its output is the delta_time-scaled wrapped
integration, independent of the sqrt parameter. -/
theorem kernelStep_singleton (s : ℚ → ℚ) (p : Particle)
    (h : Vec3.dot p.vel p.vel ≤ boidsConfig.max_speed * boidsConfig.max_speed) :
    kernelStep s boidsConfig [p] 0 =
      ⟨wrapAround 100 100 100 (Vec3.add p.pos (Vec3.smul (1 / 10) p.vel)), p.vel⟩ := by
  have hvel : Vec3.add p.vel (Vec3.smul boidsConfig.delta_time Vec3.zero) = p.vel := by
    simp [Vec3.add, Vec3.smul, Vec3.zero]
  have hlim : limitVec s p.vel boidsConfig.max_speed = p.vel := by
    simp only [limitVec]
    rw [if_neg]
    intro hc
    exact absurd hc.1 (not_lt.mpr h)
  have hred : kernelStep s boidsConfig [p] 0 =
      ⟨wrapAround boidsConfig.world_size_x boidsConfig.world_size_y boidsConfig.world_size_z
        (Vec3.add p.pos (Vec3.smul boidsConfig.delta_time
          (limitVec s (Vec3.add p.vel (Vec3.smul boidsConfig.delta_time Vec3.zero))
            boidsConfig.max_speed))),
       limitVec s (Vec3.add p.vel (Vec3.smul boidsConfig.delta_time Vec3.zero))
         boidsConfig.max_speed⟩ := rfl
  rw [hred, hvel, hlim]
  rfl

/-- C1 counterexample input: a lone entity at the origin with unit
x-velocity. -/
def particleC1 : Particle := ⟨⟨0, 0, 0⟩, ⟨1, 0, 0⟩⟩

/-- C1, counterexample.  For a single entity (no neighbours, no clamping,
no wrap), one invocation of the kernel rule body moves the entity by
delta_time · velocity = 0.1, while one tick of the CPU fallback moves it by
the full velocity: the two strategies are not behaviorally equivalent. -/
theorem kernel_vs_fallback_counterexample :
    kernelStep sqrtZero boidsConfig [particleC1] 0 ≠ cpuMoveEntity particleC1 := by
  have h := kernelStep_singleton sqrtZero particleC1
    (by norm_num [particleC1, Vec3.dot, boidsConfig])
  rw [h]
  intro hc
  have hx := congrArg (fun q => q.pos.x) hc
  simp only [particleC1, cpuMoveEntity, Vec3.add, Vec3.smul, wrapAround] at hx
  norm_num at hx

/-- Modelled from the spec: data/rules/evolution.json is missing from the
source tree.  The spec fixes the sweet digestion rule's energyChange at +5
("feeding an entity amount=2 of a rule with energyChange=+5 yields a +10
energy delta"); the remaining effect fields are kept as parameters. -/
def sweetRule (mood pr pg pb psz : Option ℚ) : EvolutionRule :=
  { ruleName := "SweetFoodDigestion"
    foodType := "sweet"
    effect :=
      { energyChange := some 5
        moodHappinessChange := mood
        phenotypeRChange := pr
        phenotypeGChange := pg
        phenotypeBChange := pb
        phenotypeSizeChange := psz } }

/-- A one-entity world (entity id 0) holding every component, with the
given energy, mood, phenotype and stomach values. -/
def oneEntityWorld (en mx hap pr pg pb psz : ℚ) (t : ℕ) (amt : ℚ) : WorldState :=
  { entities := [0]
    nextEid := 1
    hasPosition := fun e => e == 0
    hasVelocity := fun e => e == 0
    hasGenome := fun e => e == 0
    hasPhenotype := fun e => e == 0
    hasStomach := fun e => e == 0
    hasEnergy := fun e => e == 0
    hasMood := fun e => e == 0
    hasCultural := fun e => e == 0
    posX := fun _ => 0
    posY := fun _ => 0
    posZ := fun _ => 0
    velX := fun _ => 0
    velY := fun _ => 0
    velZ := fun _ => 0
    genomeId := fun _ => 0
    phenR := fun _ => pr
    phenG := fun _ => pg
    phenB := fun _ => pb
    phenSize := fun _ => psz
    stomachType := fun _ => t
    stomachAmt := fun _ => amt
    energyCur := fun _ => en
    energyMax := fun _ => mx
    happiness := fun _ => hap
    dancing := fun _ => 0 }

/-- C10.  When the stomach holds a nonzero food type with positive amount
but the numeric id maps to no food name, or no rule's trigger matches the
name, one metabolism tick still fully empties the stomach and applies no
digestion effects: energy changes only by the basal drain (floored at 0),
and mood and phenotype are untouched. -/
theorem metabolism_unknown_food (rules : List EvolutionRule)
    (en mx hap pr pg pb psz : ℚ) (t : ℕ) (amt : ℚ)
    (ht : 0 < t) (ha : 0 < amt)
    (hm : foodNameOfId t = "" ∨
      rules.find? (fun r => r.foodType = foodNameOfId t) = none) :
    (metabolismSystem rules (oneEntityWorld en mx hap pr pg pb psz t amt)).stomachType 0 = 0 ∧
    (metabolismSystem rules (oneEntityWorld en mx hap pr pg pb psz t amt)).stomachAmt 0 = 0 ∧
    (metabolismSystem rules (oneEntityWorld en mx hap pr pg pb psz t amt)).energyCur 0 =
      (if en - 5 / 100 < 0 then 0 else en - 5 / 100) ∧
    (metabolismSystem rules (oneEntityWorld en mx hap pr pg pb psz t amt)).happiness 0 = hap ∧
    (metabolismSystem rules (oneEntityWorld en mx hap pr pg pb psz t amt)).phenR 0 = pr ∧
    (metabolismSystem rules (oneEntityWorld en mx hap pr pg pb psz t amt)).phenG 0 = pg ∧
    (metabolismSystem rules (oneEntityWorld en mx hap pr pg pb psz t amt)).phenB 0 = pb ∧
    (metabolismSystem rules (oneEntityWorld en mx hap pr pg pb psz t amt)).phenSize 0 = psz := by
  have hq : metabolismQuery (oneEntityWorld en mx hap pr pg pb psz t amt) = [0] := by
    simp [metabolismQuery, oneEntityWorld]
  have hsys : metabolismSystem rules (oneEntityWorld en mx hap pr pg pb psz t amt) =
      metabolismEntity rules (oneEntityWorld en mx hap pr pg pb psz t amt) 0 := by
    rw [metabolismSystem, hq]
    rfl
  rw [hsys]
  simp only [metabolismEntity, oneEntityWorld]
  rw [if_pos ⟨ht, ha⟩]
  rcases hm with hm | hm
  · rw [if_neg (show ¬(foodNameOfId t ≠ "") from by simp [hm])]
    simp [upd]
  · by_cases hname : foodNameOfId t = ""
    · rw [if_neg (show ¬(foodNameOfId t ≠ "") from by simp [hname])]
      simp [upd]
    · rw [if_pos hname, hm]
      simp [upd]

/-- Witness for metabolism_unknown_food: stomach food type 2 maps to no
known food name. -/
theorem metabolism_unknown_food_witness :
    (metabolismSystem [sweetRule none none none none none]
      (oneEntityWorld 1 2 0 0 0 0 1 2 1)).stomachType 0 = 0 ∧
    (metabolismSystem [sweetRule none none none none none]
      (oneEntityWorld 1 2 0 0 0 0 1 2 1)).stomachAmt 0 = 0 ∧
    (metabolismSystem [sweetRule none none none none none]
      (oneEntityWorld 1 2 0 0 0 0 1 2 1)).energyCur 0 =
      (if (1 : ℚ) - 5 / 100 < 0 then 0 else 1 - 5 / 100) ∧
    (metabolismSystem [sweetRule none none none none none]
      (oneEntityWorld 1 2 0 0 0 0 1 2 1)).happiness 0 = 0 ∧
    (metabolismSystem [sweetRule none none none none none]
      (oneEntityWorld 1 2 0 0 0 0 1 2 1)).phenR 0 = 0 ∧
    (metabolismSystem [sweetRule none none none none none]
      (oneEntityWorld 1 2 0 0 0 0 1 2 1)).phenG 0 = 0 ∧
    (metabolismSystem [sweetRule none none none none none]
      (oneEntityWorld 1 2 0 0 0 0 1 2 1)).phenB 0 = 0 ∧
    (metabolismSystem [sweetRule none none none none none]
      (oneEntityWorld 1 2 0 0 0 0 1 2 1)).phenSize 0 = 1 :=
  metabolism_unknown_food [sweetRule none none none none none] 1 2 0 0 0 0 1 2 1
    (by norm_num) (by norm_num)
    (Or.inl (by simp [foodNameOfId, foodTypeMap]))

/-- Digestion effect application only ever writes energyCur, happiness and
the phenotype fields: everything else is framed. -/
theorem digestApply_frame (rule : EvolutionRule) (amt : ℚ) (e : ℕ) (w : WorldState) :
    (digestApply rule amt e w).entities = w.entities ∧
    (digestApply rule amt e w).nextEid = w.nextEid ∧
    (digestApply rule amt e w).hasEnergy = w.hasEnergy ∧
    (digestApply rule amt e w).hasStomach = w.hasStomach ∧
    (digestApply rule amt e w).hasMood = w.hasMood ∧
    (digestApply rule amt e w).hasPhenotype = w.hasPhenotype ∧
    (digestApply rule amt e w).energyMax = w.energyMax ∧
    (digestApply rule amt e w).stomachType = w.stomachType ∧
    (digestApply rule amt e w).stomachAmt = w.stomachAmt := by
  obtain ⟨rn, ft, en, mo, prr, pgg, pbb, pss⟩ := rule
  cases mo <;> cases prr <;> cases pgg <;> cases pbb <;> cases pss <;>
    simp [digestApply] <;> split_ifs <;> simp

/-- The energy write of digestion: current plus energyChange scaled by the
amount, clamped above at max, applied only when the field is truthy. -/
theorem digestApply_energyCur (rule : EvolutionRule) (amt : ℚ) (e : ℕ) (w : WorldState) :
    (digestApply rule amt e w).energyCur =
      (if truthy rule.effect.energyChange then
        upd w.energyCur e
          (if w.energyCur e + rule.effect.energyChange.getD 0 * amt > w.energyMax e then
            w.energyMax e
          else w.energyCur e + rule.effect.energyChange.getD 0 * amt)
      else w.energyCur) := by
  obtain ⟨rn, ft, en, mo, prr, pgg, pbb, pss⟩ := rule
  cases mo <;> cases prr <;> cases pgg <;> cases pbb <;> cases pss <;>
    simp [digestApply] <;> split_ifs <;> simp

/-- The result of one matched digestion iteration: basal drain, then the
rule's effects scaled by the stomach amount, then the stomach emptied. -/
def metabolismDigestResult (rule : EvolutionRule) (w : WorldState) (e : ℕ) : WorldState :=
  let basal := if w.energyCur e - 5 / 100 < 0 then 0 else w.energyCur e - 5 / 100
  let wA := { w with energyCur := upd w.energyCur e basal }
  let wB := digestApply rule (w.stomachAmt e) e wA
  { wB with
    stomachType := upd wB.stomachType e 0
    stomachAmt := upd wB.stomachAmt e 0 }

/-- One metabolism loop iteration when the stomach holds a positive amount
of a known food whose rule is found. -/
theorem metabolismEntity_matched (rules : List EvolutionRule) (w : WorldState) (e : ℕ)
    (rule : EvolutionRule)
    (ht : 0 < w.stomachType e) (ha : 0 < w.stomachAmt e)
    (hname : foodNameOfId (w.stomachType e) ≠ "")
    (hfind : rules.find? (fun r => r.foodType = foodNameOfId (w.stomachType e)) = some rule) :
    metabolismEntity rules w e = metabolismDigestResult rule w e := by
  simp only [metabolismEntity, metabolismDigestResult]
  rw [if_pos ⟨ht, ha⟩, if_pos hname, hfind]

/-- C8, counterexample.  Feeding amount 2 of the sweet rule
(energyChange = +5) to an entity with energy 10 and max 100 and then
running one metabolism tick yields energy 19.95, not the claimed
10 + 10 = 20: the same tick also applies the basal drain of 0.05 before
digesting. -/
theorem digestion_basal_counterexample :
    (metabolismSystem [sweetRule none none none none none]
      (feedCreature 0 "sweet" 2 (oneEntityWorld 10 100 0 0 0 0 1 0 0))).energyCur 0 =
      399 / 20 ∧ (399 / 20 : ℚ) ≠ 10 + 10 := by
  constructor
  · have hq : metabolismQuery (feedCreature 0 "sweet" 2
        (oneEntityWorld 10 100 0 0 0 0 1 0 0)) = [0] := by
      simp [metabolismQuery, feedCreature, foodTypeMap, oneEntityWorld]
    have hsys : metabolismSystem [sweetRule none none none none none]
        (feedCreature 0 "sweet" 2 (oneEntityWorld 10 100 0 0 0 0 1 0 0)) =
        metabolismEntity [sweetRule none none none none none]
          (feedCreature 0 "sweet" 2 (oneEntityWorld 10 100 0 0 0 0 1 0 0)) 0 := by
      rw [metabolismSystem, hq]
      rfl
    rw [hsys]
    norm_num [metabolismEntity, feedCreature, foodTypeMap, foodNameOfId, oneEntityWorld,
      sweetRule, digestApply, truthy, upd]
    rw [if_neg (show ¬("sweet" = "") from by simp)]
    simp [upd]
  · norm_num

/-- C8, amended.  Feeding an entity amount 2 of the sweet food (whose
digestion rule has energyChange = +5) and running one metabolism tick
first applies the basal drain of 0.05 (floored at 0) and then an
all-or-nothing +10 digestion delta clamped to Energy.max, and afterwards
the stomach is empty: foodTypeToDigest = 0 and amountToDigest = 0. -/
theorem digestion_sweet_amount_two (en mx hap prv pgv pbv pszv : ℚ)
    (mood pr pg pb psz : Option ℚ) :
    (metabolismSystem [sweetRule mood pr pg pb psz]
      (feedCreature 0 "sweet" 2 (oneEntityWorld en mx hap prv pgv pbv pszv 0 0))).energyCur 0 =
      (if (if en - 5 / 100 < 0 then 0 else en - 5 / 100) + 5 * 2 > mx then mx
       else (if en - 5 / 100 < 0 then 0 else en - 5 / 100) + 5 * 2) ∧
    (metabolismSystem [sweetRule mood pr pg pb psz]
      (feedCreature 0 "sweet" 2
        (oneEntityWorld en mx hap prv pgv pbv pszv 0 0))).stomachType 0 = 0 ∧
    (metabolismSystem [sweetRule mood pr pg pb psz]
      (feedCreature 0 "sweet" 2
        (oneEntityWorld en mx hap prv pgv pbv pszv 0 0))).stomachAmt 0 = 0 := by
  have hq : metabolismQuery (feedCreature 0 "sweet" 2
      (oneEntityWorld en mx hap prv pgv pbv pszv 0 0)) = [0] := by
    simp [metabolismQuery, feedCreature, foodTypeMap, oneEntityWorld]
  have hsys : metabolismSystem [sweetRule mood pr pg pb psz]
      (feedCreature 0 "sweet" 2 (oneEntityWorld en mx hap prv pgv pbv pszv 0 0)) =
      metabolismEntity [sweetRule mood pr pg pb psz]
        (feedCreature 0 "sweet" 2 (oneEntityWorld en mx hap prv pgv pbv pszv 0 0)) 0 := by
    rw [metabolismSystem, hq]
    rfl
  have hment := metabolismEntity_matched [sweetRule mood pr pg pb psz]
    (feedCreature 0 "sweet" 2 (oneEntityWorld en mx hap prv pgv pbv pszv 0 0)) 0
    (sweetRule mood pr pg pb psz)
    (by simp [feedCreature, foodTypeMap, oneEntityWorld, upd])
    (by norm_num [feedCreature, foodTypeMap, oneEntityWorld, upd])
    (by simp [feedCreature, foodTypeMap, oneEntityWorld, upd, foodNameOfId])
    (by simp [feedCreature, foodTypeMap, oneEntityWorld, upd, foodNameOfId, sweetRule])
  rw [hsys, hment]
  refine ⟨?_, ?_, ?_⟩
  · simp only [metabolismDigestResult, digestApply_energyCur]
    simp [sweetRule, truthy, upd, feedCreature, foodTypeMap, oneEntityWorld]
  · simp [metabolismDigestResult, upd]
  · simp [metabolismDigestResult, upd]

/-- Specification-side definition, written from the spec's words for the
refinement comparison: for one ordered (initiator, candidate) pair, apply
the effects of exactly the first rule in declaration order whose
preconditions all hold, and of no other rule. -/
def socialPairSpec (rules : List SocialRule) (w : WorldState) (rel : RelMap) (i t : ℕ) :
    WorldState × RelMap :=
  match rules.find? (fun r => preconditionsHold r w rel i t) with
  | some r => applyEffects r w rel i t
  | none => (w, rel)

/-- C6.  Within one tick, for every ordered (initiator, candidate) pair the
rule loop applies the effects of at most one rule — the first rule in
declaration order whose preconditions (exact squared-distance comparison
against distance_lt, relationship lookup defaulting to 0 against
relationship_gt) all hold — and evaluates no further rules for that pair.
Stated for rule lists whose verbs are all "Groom", since the loop's
hardcoded verb filter skips any other rule.  The rule files are not in the
source tree; the spec documents the single "Groom" rule. -/
theorem social_first_match_only :
    ∀ (rules : List SocialRule), (∀ r ∈ rules, r.verb = "Groom") →
      ∀ (w : WorldState) (rel : RelMap) (i t : ℕ),
        applyRulesForPair rules w rel i t = socialPairSpec rules w rel i t := by
  intro rules
  induction rules with
  | nil => intro _ w rel i t; rfl
  | cons r rest ih =>
      intro hverb w rel i t
      have hr : r.verb = "Groom" := hverb r (List.mem_cons_self r rest)
      have hrest : ∀ x ∈ rest, x.verb = "Groom" := fun x hx => hverb x (List.mem_cons_of_mem r hx)
      simp only [applyRulesForPair, socialPairSpec, List.find?]
      rw [if_pos hr]
      cases hp : preconditionsHold r w rel i t with
      | true => simp [hp]
      | false => simpa [hp, socialPairSpec] using ih hrest w rel i t

/-- A concrete Groom rule used as witness input (the rule-file values are
not part of the source tree; any values exercise the theorem). -/
def groomRuleW : SocialRule :=
  { verb := "Groom"
    distance_lt := some 2
    relationship_gt := some 0
    targetMoodHappinessChange := some (1 / 10)
    initiatorEnergyChange := some (-(1 / 10))
    relationshipChange := some (5 / 100) }

/-- Witness for social_first_match_only on a singleton Groom rule list. -/
theorem social_first_match_only_witness :
    applyRulesForPair [groomRuleW] (oneEntityWorld 1 2 0 0 0 0 1 0 0) [] 0 1 =
      socialPairSpec [groomRuleW] (oneEntityWorld 1 2 0 0 0 0 1 0 0) [] 0 1 :=
  social_first_match_only [groomRuleW]
    (by
      intro r hr
      rw [List.mem_singleton] at hr
      rw [hr]
      rfl)
    (oneEntityWorld 1 2 0 0 0 0 1 0 0) [] 0 1

@[simp] theorem jsMapGet_nil {κ α : Type} [DecidableEq κ] (k : κ) :
    jsMapGet ([] : List (κ × α)) k = none := rfl

theorem jsMapGet_set_self {κ α : Type} [DecidableEq κ] (m : List (κ × α)) (k : κ) (v : α) :
    jsMapGet (jsMapSet m k v) k = some v := by
  rw [jsMapSet]
  by_cases hm : m.any (fun q => q.1 = k) = true
  · rw [if_pos hm, jsMapGet, List.find?_map]
    have hpred : ((fun q : κ × α => decide (q.1 = k)) ∘
        (fun p => if p.1 = k then (k, v) else p)) = fun p : κ × α => decide (p.1 = k) := by
      funext p
      by_cases hp : p.1 = k <;> simp [hp]
    rw [hpred]
    have hex : ∃ x ∈ m, decide (x.1 = k) = true := by
      obtain ⟨x, hx, hpx⟩ := List.any_eq_true.mp hm
      exact ⟨x, hx, hpx⟩
    obtain ⟨q, hfq⟩ := Option.isSome_iff_exists.mp (List.find?_isSome.mpr hex)
    rw [hfq]
    have hq : q.1 = k := by simpa using List.find?_some hfq
    simp [hq]
  · rw [if_neg hm, jsMapGet, List.find?_append]
    have hnone : m.find? (fun q => decide (q.1 = k)) = none := by
      rw [List.find?_eq_none]
      intro x hx
      simp only [decide_eq_true_eq]
      intro hxk
      exact hm (List.any_eq_true.mpr ⟨x, hx, by simp [hxk]⟩)
    rw [hnone]
    simp [List.find?]

theorem jsMapGet_set_other {κ α : Type} [DecidableEq κ] (m : List (κ × α)) (k k' : κ) (v : α)
    (hne : k' ≠ k) : jsMapGet (jsMapSet m k v) k' = jsMapGet m k' := by
  rw [jsMapSet]
  by_cases hm : m.any (fun q => q.1 = k) = true
  · rw [if_pos hm, jsMapGet, List.find?_map]
    have hpred : ((fun q : κ × α => decide (q.1 = k')) ∘
        (fun p => if p.1 = k then (k, v) else p)) = fun p : κ × α => decide (p.1 = k') := by
      funext p
      by_cases hp : p.1 = k
      · simp [hp, Ne.symm hne]
      · simp [hp]
    rw [hpred]
    cases hfq : m.find? (fun q => decide (q.1 = k')) with
    | none => simp [jsMapGet, hfq]
    | some q =>
        have hq : q.1 = k' := by simpa using List.find?_some hfq
        have hqf : (if q.1 = k then (k, v) else q) = q := if_neg (by rw [hq]; exact hne)
        simp [jsMapGet, hfq, hqf]
  · rw [if_neg hm, jsMapGet, List.find?_append, jsMapGet]
    cases hfq : m.find? (fun q => decide (q.1 = k')) with
    | some q => simp [hfq]
    | none => simp [hfq, List.find?, Ne.symm hne]

/-- Composite lookup: the stored weight from a to b, when present. -/
def relLookup (rel : RelMap) (a b : ℕ) : Option ℚ :=
  (jsMapGet rel a).bind (fun inner => jsMapGet inner b)

/-- The relationship graph invariant of the spec: every stored weight lies
in [-1, 1] and the graph is symmetric. -/
def RelWF (rel : RelMap) : Prop :=
  ∀ a b v, relLookup rel a b = some v → -1 ≤ v ∧ v ≤ 1 ∧ relLookup rel b a = some v

/-- Reading through the getD-[] veil equals the composite lookup. -/
theorem relLookup_of_getD (rel : RelMap) (k y : ℕ) :
    jsMapGet ((jsMapGet rel k).getD []) y = relLookup rel k y := by
  cases h : jsMapGet rel k <;> simp [relLookup, h]

theorem relLookup_ensureEntry (rel : RelMap) (k x y : ℕ) :
    relLookup (ensureEntry rel k) x y = relLookup rel x y := by
  rw [ensureEntry]
  by_cases hs : (jsMapGet rel k).isSome
  · rw [if_pos hs]
  · rw [if_neg hs]
    by_cases hx : x = k
    · subst hx
      have hnone : jsMapGet rel x = none := Option.not_isSome_iff_eq_none.mp hs
      rw [relLookup, jsMapGet_set_self, relLookup, hnone]
      simp
    · rw [relLookup, jsMapGet_set_other _ _ _ _ hx, relLookup]

theorem ensureEntry_isSome_self (rel : RelMap) (k : ℕ) :
    (jsMapGet (ensureEntry rel k) k).isSome := by
  rw [ensureEntry]
  by_cases hs : (jsMapGet rel k).isSome
  · rw [if_pos hs]; exact hs
  · rw [if_neg hs, jsMapGet_set_self]; rfl

theorem ensureEntry_isSome_mono (rel : RelMap) (k j : ℕ) (h : (jsMapGet rel j).isSome) :
    (jsMapGet (ensureEntry rel k) j).isSome := by
  rw [ensureEntry]
  by_cases hs : (jsMapGet rel k).isSome
  · rw [if_pos hs]; exact h
  · rw [if_neg hs]
    by_cases hj : j = k
    · subst hj; rw [jsMapGet_set_self]; rfl
    · rw [jsMapGet_set_other _ _ _ _ hj]; exact h

/-- The map after both ensureEntry preambles of an update. -/
def relStep2 (rel : RelMap) (a b : ℕ) : RelMap := ensureEntry (ensureEntry rel a) b

/-- The strength stored by an update: current strength (default 0) plus
the change, clamped to [-1, 1]. -/
def newStrength (rel : RelMap) (a b : ℕ) (c : ℚ) : ℚ :=
  jsClamp (-1) 1 ((jsMapGet ((jsMapGet (relStep2 rel a b) a).getD []) b).getD 0 + c)

/-- The map after the first (initiator-side) write of an update. -/
def relStep3 (rel : RelMap) (a b : ℕ) (c : ℚ) : RelMap :=
  jsMapSet (relStep2 rel a b) a
    (jsMapSet ((jsMapGet (relStep2 rel a b) a).getD []) b (newStrength rel a b c))

theorem update_eq (rel : RelMap) (a b : ℕ) (c : ℚ) :
    updateRelationshipStrength rel a b c =
      jsMapSet (relStep3 rel a b c) b
        (jsMapSet ((jsMapGet (relStep3 rel a b c) b).getD []) a (newStrength rel a b c)) := rfl

theorem relLookup_relStep2 (rel : RelMap) (a b x y : ℕ) :
    relLookup (relStep2 rel a b) x y = relLookup rel x y := by
  rw [relStep2, relLookup_ensureEntry, relLookup_ensureEntry]

/-- After an update, the target-to-initiator direction stores the new
strength. -/
theorem update_lookup_ba (rel : RelMap) (a b : ℕ) (c : ℚ) :
    relLookup (updateRelationshipStrength rel a b c) b a = some (newStrength rel a b c) := by
  rw [update_eq, relLookup, jsMapGet_set_self]
  simp only [Option.some_bind]
  rw [jsMapGet_set_self]

/-- After an update, the initiator-to-target direction stores the new
strength. -/
theorem update_lookup_ab (rel : RelMap) (a b : ℕ) (c : ℚ) :
    relLookup (updateRelationshipStrength rel a b c) a b = some (newStrength rel a b c) := by
  by_cases hab : a = b
  · rw [hab]
    exact update_lookup_ba rel b b c
  · rw [update_eq, relLookup, jsMapGet_set_other _ _ _ _ hab]
    rw [relStep3, jsMapGet_set_self]
    simp only [Option.some_bind]
    rw [jsMapGet_set_self]

/-- After an update, every lookup outside the two written ordered pairs is
unchanged. -/
theorem update_lookup_other (rel : RelMap) (a b : ℕ) (c : ℚ) (x y : ℕ)
    (h1 : ¬(x = a ∧ y = b)) (h2 : ¬(x = b ∧ y = a)) :
    relLookup (updateRelationshipStrength rel a b c) x y = relLookup rel x y := by
  rw [← relLookup_relStep2 rel a b x y]
  by_cases hxb : x = b
  · have hya : y ≠ a := fun hy => h2 ⟨hxb, hy⟩
    rw [hxb] at h1 ⊢
    rw [update_eq, relLookup, jsMapGet_set_self]
    simp only [Option.some_bind]
    rw [jsMapGet_set_other _ _ _ _ hya]
    by_cases hba : b = a
    · have hget : jsMapGet (relStep3 rel a b c) b =
          some (jsMapSet ((jsMapGet (relStep2 rel a b) a).getD []) b (newStrength rel a b c)) := by
        rw [relStep3, hba]
        exact jsMapGet_set_self _ _ _
      rw [hget]
      simp only [Option.getD_some]
      have hyb : y ≠ b := fun hy => hya (hy.trans hba)
      rw [jsMapGet_set_other _ _ _ _ hyb, relLookup_of_getD, relLookup, relLookup, hba]
    · have hget : jsMapGet (relStep3 rel a b c) b = jsMapGet (relStep2 rel a b) b := by
        rw [relStep3]
        exact jsMapGet_set_other _ _ _ _ hba
      rw [hget, relLookup_of_getD]
  · rw [update_eq, relLookup, jsMapGet_set_other _ _ _ _ hxb]
    by_cases hxa : x = a
    · have hyb : y ≠ b := fun hy => h1 ⟨hxa, hy⟩
      rw [hxa, relStep3, jsMapGet_set_self]
      simp only [Option.some_bind]
      rw [jsMapGet_set_other _ _ _ _ hyb, relLookup_of_getD]
    · rw [relStep3, jsMapGet_set_other _ _ _ _ hxa]
      rfl

theorem setRelationshipStrengths_eq (rel : RelMap) : setRelationshipStrengths rel = rel := by
  rw [setRelationshipStrengths]
  simp

/-- C7.  The relationship graph invariant — every stored weight in [-1, 1]
and symmetric (A→B equals B→A) — holds of the initial empty graph and is
preserved by every operation that mutates or restores the graph:
updateRelationshipStrength (for any pair and any delta) and
setRelationshipStrengths (which copies a graph satisfying the invariant,
as loadState hands it). -/
theorem relationship_invariant_preserved :
    RelWF initializeSocialState ∧
    (∀ rel a b c, RelWF rel → RelWF (updateRelationshipStrength rel a b c)) ∧
    (∀ rel, RelWF rel → RelWF (setRelationshipStrengths rel)) := by
  refine ⟨?_, ?_, ?_⟩
  · intro a b v h
    simp [relLookup, initializeSocialState] at h
  · intro rel a b c hwf x y v hxy
    by_cases hc : (x = a ∧ y = b) ∨ (x = b ∧ y = a)
    · have hv : v = newStrength rel a b c := by
        rcases hc with ⟨hx, hy⟩ | ⟨hx, hy⟩
        · rw [hx, hy, update_lookup_ab] at hxy
          exact (Option.some.inj hxy).symm
        · rw [hx, hy, update_lookup_ba] at hxy
          exact (Option.some.inj hxy).symm
      subst hv
      refine ⟨neg_one_le_jsClamp _, jsClamp_le_one _, ?_⟩
      rcases hc with ⟨hx, hy⟩ | ⟨hx, hy⟩
      · rw [hx, hy]
        exact update_lookup_ba rel a b c
      · rw [hx, hy]
        exact update_lookup_ab rel a b c
    · push_neg at hc
      have hother := update_lookup_other rel a b c x y
        (fun hp => absurd hp (by intro hp2; exact (hc.1 hp2.1) hp2.2))
        (fun hp => absurd hp (by intro hp2; exact (hc.2 hp2.1) hp2.2))
      rw [hother] at hxy
      have h0 := hwf x y v hxy
      refine ⟨h0.1, h0.2.1, ?_⟩
      rw [update_lookup_other rel a b c y x]
      · exact h0.2.2
      · intro hp
        exact (hc.2 hp.2) hp.1
      · intro hp
        exact (hc.1 hp.2) hp.1
  · intro rel hwf
    rw [setRelationshipStrengths_eq]
    exact hwf

/-- Witness for relationship_invariant_preserved: one update from the
empty graph (clamping 0 + 1.5 to 1) yields a well-formed graph. -/
theorem relationship_invariant_preserved_witness :
    RelWF (updateRelationshipStrength initializeSocialState 1 2 (3 / 2)) :=
  relationship_invariant_preserved.2.1 initializeSocialState 1 2 (3 / 2)
    relationship_invariant_preserved.1

/-- The three energy-relevant slots of the store, for frame reasoning. -/
def energyView (w : WorldState) : (ℕ → Bool) × (ℕ → ℚ) × (ℕ → ℚ) :=
  (w.hasEnergy, w.energyCur, w.energyMax)

/-- The energy invariant of the spec: every entity holding Energy has
0 ≤ current ≤ max. -/
def EnergyWF (w : WorldState) : Prop :=
  ∀ e, w.hasEnergy e = true → 0 ≤ w.energyCur e ∧ w.energyCur e ≤ w.energyMax e

theorem EnergyWF_of_energyView (w w' : WorldState) (h : energyView w' = energyView w)
    (hw : EnergyWF w) : EnergyWF w' := by
  intro e he
  have h1 : w'.hasEnergy = w.hasEnergy := congrArg Prod.fst h
  have h2 : w'.energyCur = w.energyCur := congrArg (fun p => p.2.1) h
  have h3 : w'.energyMax = w.energyMax := congrArg (fun p => p.2.2) h
  rw [h2, h3]
  exact hw e (h1 ▸ he)

theorem foldl_energyView {α : Type} (g : WorldState → α → WorldState)
    (hg : ∀ w a, energyView (g w a) = energyView w) (l : List α) (w : WorldState) :
    energyView (l.foldl g w) = energyView w :=
  foldl_preserve (fun w' => energyView w' = energyView w) g l w rfl
    (fun w' a h => (hg w' a).trans h)

theorem movementSystemW_energyView (w : WorldState) :
    energyView (movementSystemW w) = energyView w := by
  rw [movementSystemW]
  refine foldl_energyView _ (fun w' e => ?_) _ _
  rfl

theorem boidsSystemW_energyView (s : ℚ → ℚ) (w : WorldState) :
    energyView (boidsSystemW s w) = energyView w := by
  rw [boidsSystemW]
  refine foldl_energyView _ (fun w' p => ?_) _ _
  obtain ⟨i, e⟩ := p
  rfl

theorem feedCreature_energyView (e : ℕ) (ft : String) (amt : ℚ) (w : WorldState) :
    energyView (feedCreature e ft amt w) = energyView w := by
  rw [feedCreature]
  split
  · split <;> rfl
  · rfl

theorem foragingSystem_energyView (roll : ℕ → Bool) (w : WorldState) :
    energyView (foragingSystem roll w) = energyView w := by
  rw [foragingSystem]
  refine foldl_energyView _ (fun w' e => ?_) _ _
  by_cases h : roll e
  · rw [if_pos h, feedCreature_energyView]
  · rw [if_neg h]

theorem danceStep_energyView (trig : TrigOracle) (fs : FestivalState) (w : WorldState) (e : ℕ) :
    energyView (danceStep trig fs w e) = energyView w := by
  simp only [danceStep]
  split <;> rfl

theorem danceFold_energyView (trig : TrigOracle) (fs : FestivalState) (l : List ℕ)
    (w : WorldState) :
    energyView (l.foldl (fun w e => if w.dancing e = 1 then danceStep trig fs w e else w) w) =
      energyView w := by
  refine foldl_energyView _ (fun w' e => ?_) _ _
  by_cases h : w'.dancing e = 1
  · rw [if_pos h, danceStep_energyView]
  · rw [if_neg h]

theorem tagFold_energyView (v : ℕ) (l : List ℕ) (w : WorldState) :
    energyView (l.foldl (fun w e => { w with dancing := upd w.dancing e v }) w) =
      energyView w := by
  refine foldl_energyView _ (fun w' e => ?_) _ _
  rfl

theorem festivalSystem_energyView (trig : TrigOracle) (w : WorldState) (fs : FestivalState) :
    energyView (festivalSystem trig w fs).1 = energyView w := by
  simp only [festivalSystem]
  split
  · rfl
  · repeat' split
    all_goals
      first
        | rfl
        | rw [danceFold_energyView, tagFold_energyView]
        | rw [danceFold_energyView]
        | rw [tagFold_energyView]

/-- The store after only the basal-drain write of one metabolism loop
iteration. -/
def basalWorld (w : WorldState) (e : ℕ) : WorldState :=
  { w with energyCur := upd w.energyCur e (if w.energyCur e - 5 / 100 < 0 then 0 else w.energyCur e - 5 / 100) }

theorem basalWorld_EnergyWF (w : WorldState) (e : ℕ) (hw : EnergyWF w) :
    EnergyWF (basalWorld w e) := by
  intro x hx
  rw [basalWorld] at hx ⊢
  by_cases hxe : x = e
  · subst hxe
    obtain ⟨h1, h2⟩ := hw x hx
    simp only [upd_same]
    split
    · exact ⟨le_refl 0, by linarith⟩
    · constructor <;> [linarith; linarith]
  · simp only [upd_other _ _ _ _ hxe]
    exact hw x hx

theorem digestApply_EnergyWF (rule : EvolutionRule) (amt : ℚ)
    (hnn : 0 ≤ rule.effect.energyChange.getD 0) (hamt : 0 ≤ amt)
    (e : ℕ) (w : WorldState) (hw : EnergyWF w) : EnergyWF (digestApply rule amt e w) := by
  intro x hx
  have hfr := digestApply_frame rule amt e w
  rw [digestApply_energyCur]
  rw [congrFun hfr.2.2.2.2.2.2.1 x]
  have hx0 : w.hasEnergy x = true := (congrFun hfr.2.2.1 x).symm.trans hx
  split
  · by_cases hxe : x = e
    · subst hxe
      obtain ⟨h1, h2⟩ := hw x hx0
      simp only [upd_same]
      have hprod : 0 ≤ rule.effect.energyChange.getD 0 * amt := mul_nonneg hnn hamt
      split
      · exact ⟨by linarith, le_refl _⟩
      · rename_i hgt
        push_neg at hgt
        exact ⟨by linarith, hgt⟩
    · simp only [upd_other _ _ _ _ hxe]
      exact hw x hx0
  · exact hw x hx0

theorem metabolismEntity_EnergyWF (rules : List EvolutionRule)
    (hEvo : ∀ r ∈ rules, 0 ≤ r.effect.energyChange.getD 0)
    (w : WorldState) (e : ℕ) (hw : EnergyWF w) : EnergyWF (metabolismEntity rules w e) := by
  have hbasal : EnergyWF (basalWorld w e) := basalWorld_EnergyWF w e hw
  rw [metabolismEntity]
  simp only []
  split
  next hcond =>
    split
    next hname =>
      split
      next rule hfind =>
        have hrule : rule ∈ rules := List.mem_of_find?_eq_some hfind
        have hdig : EnergyWF (digestApply rule (w.stomachAmt e) e (basalWorld w e)) :=
          digestApply_EnergyWF rule (w.stomachAmt e) (hEvo rule hrule)
            (le_of_lt hcond.2) e (basalWorld w e) hbasal
        intro x hx
        exact hdig x hx
      next hfindnone =>
        intro x hx
        exact hbasal x hx
    next hname =>
      intro x hx
      exact hbasal x hx
  next hcond =>
    exact hbasal

theorem metabolismSystem_EnergyWF (rules : List EvolutionRule)
    (hEvo : ∀ r ∈ rules, 0 ≤ r.effect.energyChange.getD 0)
    (w : WorldState) (hw : EnergyWF w) : EnergyWF (metabolismSystem rules w) := by
  rw [metabolismSystem]
  exact foldl_preserve EnergyWF _ _ _ hw (fun w' e h => metabolismEntity_EnergyWF rules hEvo w' e h)

theorem applyEffects_hasEnergy (rule : SocialRule) (w : WorldState) (rel : RelMap) (i t : ℕ) :
    (applyEffects rule w rel i t).1.hasEnergy = w.hasEnergy := by
  simp only [applyEffects]
  split <;> split <;> rfl

theorem applyEffects_energyMax (rule : SocialRule) (w : WorldState) (rel : RelMap) (i t : ℕ) :
    (applyEffects rule w rel i t).1.energyMax = w.energyMax := by
  simp only [applyEffects]
  split <;> split <;> rfl

theorem applyEffects_energyCur (rule : SocialRule) (w : WorldState) (rel : RelMap) (i t : ℕ) :
    (applyEffects rule w rel i t).1.energyCur =
      (if truthy rule.initiatorEnergyChange then
        upd w.energyCur i (jsMax 0 (w.energyCur i + rule.initiatorEnergyChange.getD 0))
      else w.energyCur) := by
  simp only [applyEffects]
  split <;> split <;> rfl

theorem applyEffects_EnergyWF (rule : SocialRule)
    (hr : rule.initiatorEnergyChange.getD 0 ≤ 0)
    (w : WorldState) (rel : RelMap) (i t : ℕ) (hw : EnergyWF w) :
    EnergyWF (applyEffects rule w rel i t).1 := by
  intro x hx
  rw [congrFun (applyEffects_energyCur rule w rel i t) x,
    congrFun (applyEffects_energyMax rule w rel i t) x]
  have hx0 : w.hasEnergy x = true := by
    rw [← congrFun (applyEffects_hasEnergy rule w rel i t) x]
    exact hx
  split
  · by_cases hxi : x = i
    · subst hxi
      obtain ⟨h1, h2⟩ := hw x hx0
      simp only [upd_same, jsMax]
      refine ⟨le_max_left _ _, ?_⟩
      rw [max_le_iff]
      exact ⟨by linarith, by linarith⟩
    · simp only [upd_other _ _ _ _ hxi]
      exact hw x hx0
  · exact hw x hx0

theorem applyRulesForPair_EnergyWF (rules : List SocialRule)
    (hSoc : ∀ r ∈ rules, r.initiatorEnergyChange.getD 0 ≤ 0) :
    ∀ (w : WorldState) (rel : RelMap) (i t : ℕ), EnergyWF w →
      EnergyWF (applyRulesForPair rules w rel i t).1 := by
  induction rules with
  | nil => intro w rel i t hw; exact hw
  | cons r rest ih =>
      intro w rel i t hw
      have hrest : ∀ x ∈ rest, x.initiatorEnergyChange.getD 0 ≤ 0 :=
        fun x hx => hSoc x (List.mem_cons_of_mem r hx)
      rw [applyRulesForPair]
      split
      · split
        · exact applyEffects_EnergyWF r (hSoc r (List.mem_cons_self r rest)) w rel i t hw
        · exact ih hrest w rel i t hw
      · exact ih hrest w rel i t hw

theorem socialSystem_EnergyWF (rules : List SocialRule)
    (hSoc : ∀ r ∈ rules, r.initiatorEnergyChange.getD 0 ≤ 0)
    (w : WorldState) (rel : RelMap) (hw : EnergyWF w) :
    EnergyWF (socialSystem rules w rel).1 := by
  rw [socialSystem]
  refine foldl_preserve (fun st : WorldState × RelMap => EnergyWF st.1) _ _ _ hw
    (fun st i hst => ?_)
  exact foldl_preserve (fun st : WorldState × RelMap => EnergyWF st.1) _ _ _ hst
    (fun st t hst2 => applyRulesForPair_EnergyWF rules hSoc st.1 st.2 i t hst2)

/-- C2.  For every entity holding the Energy component, after one complete
tick (movement — GPU kernel or CPU fallback —, metabolism, foraging,
social, festival in their fixed order), 0 ≤ Energy.current ≤ Energy.max,
provided it held before the tick.  The rule files are not in the source
tree; the theorem holds for every rule data whose digestion energy deltas
are non-negative (the spec's sweet rule has energyChange = +5) and whose
social initiator energy deltas are non-positive (the spec clamps the
initiator's energy from below at 0, a cost). -/
theorem engineTick_energy_invariant (gpu : Bool) (s : ℚ → ℚ) (trig : TrigOracle)
    (roll : ℕ → Bool) (evoRules : List EvolutionRule) (socRules : List SocialRule)
    (w : WorldState) (rel : RelMap) (fs : FestivalState)
    (hEvo : ∀ r ∈ evoRules, 0 ≤ r.effect.energyChange.getD 0)
    (hSoc : ∀ r ∈ socRules, r.initiatorEnergyChange.getD 0 ≤ 0)
    (hw : EnergyWF w) :
    EnergyWF (engineTick gpu s trig roll evoRules socRules w rel fs).1 := by
  rw [engineTick]
  simp only []
  have hw1 : EnergyWF (if gpu then boidsSystemW s w else movementSystemW w) := by
    split
    · exact EnergyWF_of_energyView _ _ (boidsSystemW_energyView s w) hw
    · exact EnergyWF_of_energyView _ _ (movementSystemW_energyView w) hw
  have hw2 := metabolismSystem_EnergyWF evoRules hEvo _ hw1
  have hw3 : EnergyWF (foragingSystem roll (metabolismSystem evoRules
      (if gpu then boidsSystemW s w else movementSystemW w))) :=
    EnergyWF_of_energyView _ _ (foragingSystem_energyView roll _) hw2
  have hw4 := socialSystem_EnergyWF socRules hSoc _ rel hw3
  exact EnergyWF_of_energyView _ _ (festivalSystem_energyView trig _ fs) hw4

/-- Witness for engineTick_energy_invariant: a concrete one-entity tick
with the modelled sweet rule and a Groom rule whose initiator energy delta
is a cost. -/
theorem engineTick_energy_invariant_witness :
    EnergyWF (engineTick false sqrtZero trigZero (fun _ => false)
      [sweetRule none none none none none] [groomRuleW]
      (oneEntityWorld 1 2 0 0 0 0 1 0 0) [] initializeFestivalState).1 := by
  refine engineTick_energy_invariant false sqrtZero trigZero (fun _ => false)
    [sweetRule none none none none none] [groomRuleW]
    (oneEntityWorld 1 2 0 0 0 0 1 0 0) [] initializeFestivalState ?_ ?_ ?_
  · intro r hr
    rw [List.mem_singleton] at hr
    subst hr
    norm_num [sweetRule]
  · intro r hr
    rw [List.mem_singleton] at hr
    subst hr
    norm_num [groomRuleW]
  · intro e he
    norm_num [oneEntityWorld]

theorem jsMapGet_eq_none_iff {κ α : Type} [DecidableEq κ] (m : List (κ × α)) (k : κ) :
    jsMapGet m k = none ↔ ∀ p ∈ m, p.1 ≠ k := by
  rw [jsMapGet, Option.map_eq_none', List.find?_eq_none]
  constructor
  · intro h p hp
    have := h p hp
    simpa using this
  · intro h p hp
    simpa using h p hp

theorem jsMapSet_append_of_none {κ α : Type} [DecidableEq κ] (m : List (κ × α)) (k : κ)
    (v : α) (h : jsMapGet m k = none) : jsMapSet m k v = m ++ [(k, v)] := by
  rw [jsMapSet, if_neg]
  intro hany
  obtain ⟨p, hp, hpk⟩ := List.any_eq_true.mp hany
  exact (jsMapGet_eq_none_iff m k).mp h p hp (by simpa using hpk)

theorem jsMapGet_append {κ α : Type} [DecidableEq κ] (m1 m2 : List (κ × α)) (k : κ) :
    jsMapGet (m1 ++ m2) k = ((jsMapGet m1 k).or (jsMapGet m2 k)) := by
  rw [jsMapGet, List.find?_append, jsMapGet, jsMapGet]
  cases m1.find? (fun p => p.1 = k) <;> simp

/-- The old-to-new pairs created by iterating addEntity over the saved
eids in order from a fresh world: eid at position i maps to fresh id
k0 + i. -/
def idxPairs (k0 : ℕ) : List ℕ → List (ℕ × ℕ)
  | [] => []
  | a :: l => (a, k0) :: idxPairs (k0 + 1) l

theorem buildEidMap_go (nextEid : ℕ) :
    ∀ (eids : List ℕ) (m0 : List (ℕ × ℕ)) (k0 : ℕ),
      (∀ e ∈ eids, e < nextEid) → eids.Nodup →
      (∀ e ∈ eids, jsMapGet m0 e = none) →
      eids.foldl (fun st old =>
        if old < nextEid then (jsMapSet st.1 old st.2, st.2 + 1) else st) (m0, k0) =
        (m0 ++ idxPairs k0 eids, k0 + eids.length) := by
  intro eids
  induction eids with
  | nil => intro m0 k0 _ _ _; simp [idxPairs]
  | cons a l ih =>
      intro m0 k0 hlt hnd habs
      rw [List.foldl_cons]
      have hstep : (if a < nextEid then (jsMapSet m0 a k0, k0 + 1) else (m0, k0)) =
          (m0 ++ [(a, k0)], k0 + 1) := by
        rw [if_pos (hlt a (List.mem_cons_self a l))]
        rw [jsMapSet_append_of_none m0 a k0 (habs a (List.mem_cons_self a l))]
      rw [hstep]
      have habs2 : ∀ e ∈ l, jsMapGet (m0 ++ [(a, k0)]) e = none := by
        intro e he
        rw [jsMapGet_append, habs e (List.mem_cons_of_mem a he)]
        rw [Option.none_or, jsMapGet_eq_none_iff]
        intro p hp
        rw [List.mem_singleton] at hp
        subst hp
        intro hak
        have hal : a ∈ l := by rw [show a = e from hak]; exact he
        exact (List.nodup_cons.mp hnd).1 hal
      rw [ih (m0 ++ [(a, k0)]) (k0 + 1) (fun e he => hlt e (List.mem_cons_of_mem a he))
        (List.nodup_cons.mp hnd).2 habs2]
      rw [List.append_assoc]
      simp [idxPairs, List.length_cons]
      omega

theorem buildEidMap_eq (eids : List ℕ) (nextEid : ℕ)
    (hlt : ∀ e ∈ eids, e < nextEid) (hnd : eids.Nodup) :
    buildEidMap eids nextEid = (idxPairs 0 eids, eids.length) := by
  rw [buildEidMap, buildEidMap_go nextEid eids [] 0 hlt hnd (fun e _ => rfl)]
  simp

theorem idxPairs_lookup_get :
    ∀ (l : List ℕ), l.Nodup → ∀ (k0 i : ℕ) (h : i < l.length),
      jsMapGet (idxPairs k0 l) (l.get ⟨i, h⟩) = some (k0 + i) := by
  intro l
  induction l with
  | nil => intro _ k0 i h; exact absurd h (by simp)
  | cons a l ih =>
      intro hnd k0 i h
      cases i with
      | zero =>
          simp only [idxPairs, List.get]
          rw [jsMapGet]
          rw [List.find?_cons_of_pos _ (by simp)]
          simp
      | succ j =>
          have hj : j < l.length := by simpa using h
          have hget : (a :: l).get ⟨j + 1, h⟩ = l.get ⟨j, hj⟩ := rfl
          rw [hget]
          have hne : a ≠ l.get ⟨j, hj⟩ := by
            intro hcon
            exact (List.nodup_cons.mp hnd).1 (hcon ▸ l.get_mem _ _)
          simp only [idxPairs]
          rw [jsMapGet, List.find?_cons_of_neg _ (by simpa using hne)]
          rw [← jsMapGet, ih (List.nodup_cons.mp hnd).2 (k0 + 1) j hj]
          congr 1
          omega

theorem idxPairs_lookup_inv :
    ∀ (l : List ℕ) (k0 k v : ℕ), jsMapGet (idxPairs k0 l) k = some v →
      ∃ (i : ℕ) (h : i < l.length), v = k0 + i ∧ l.get ⟨i, h⟩ = k := by
  intro l
  induction l with
  | nil => intro k0 k v h; simp [idxPairs] at h
  | cons a l ih =>
      intro k0 k v h
      simp only [idxPairs] at h
      by_cases hak : a = k
      · rw [jsMapGet, List.find?_cons_of_pos _ (by simpa using hak)] at h
        simp at h
        exact ⟨0, by simp, by omega, hak⟩
      · rw [jsMapGet, List.find?_cons_of_neg _ (by simpa using hak), ← jsMapGet] at h
        obtain ⟨i, hi, hv, hg⟩ := ih (k0 + 1) k v h
        exact ⟨i + 1, by simpa using hi, by omega, hg⟩

theorem idxPairs_mem_inv :
    ∀ (l : List ℕ) (k0 : ℕ) (p : ℕ × ℕ), p ∈ idxPairs k0 l →
      ∃ (i : ℕ) (h : i < l.length), p.2 = k0 + i ∧ l.get ⟨i, h⟩ = p.1 := by
  intro l
  induction l with
  | nil => intro k0 p hp; simp [idxPairs] at hp
  | cons a l ih =>
      intro k0 p hp
      simp only [idxPairs, List.mem_cons] at hp
      rcases hp with hp | hp
      · subst hp
        exact ⟨0, by simp, by simp, rfl⟩
      · obtain ⟨i, hi, hv, hg⟩ := ih (k0 + 1) p hp
        exact ⟨i + 1, by simpa using hi, by omega, hg⟩

theorem idxPairs_snd :
    ∀ (l : List ℕ) (k0 : ℕ), (idxPairs k0 l).map (fun p => p.2) = List.range' k0 l.length := by
  intro l
  induction l with
  | nil => intro k0; rfl
  | cons a l ih =>
      intro k0
      simp only [idxPairs, List.map_cons, List.length_cons, List.range'_succ]
      rw [ih]

theorem sliceArrQ_get (f : ℕ → ℚ) (n i : ℕ) (h : i < n) :
    (sliceArrQ f n)[i]? = some (f i) := by
  rw [sliceArrQ, List.getElem?_map, List.getElem?_range h]
  rfl

theorem sliceArrN_get (f : ℕ → ℕ) (n i : ℕ) (h : i < n) :
    (sliceArrN f n)[i]? = some (f i) := by
  rw [sliceArrN, List.getElem?_map, List.getElem?_range h]
  rfl

/-- The entity list and id allocator of a world. -/
def idView (w : WorldState) : List ℕ × ℕ := (w.entities, w.nextEid)

/-- The Position component data of one entity slot. -/
def pView (w : WorldState) (x : ℕ) : Bool × ℚ × ℚ × ℚ :=
  (w.hasPosition x, w.posX x, w.posY x, w.posZ x)

/-- The Velocity component data of one entity slot. -/
def vView (w : WorldState) (x : ℕ) : Bool × ℚ × ℚ × ℚ :=
  (w.hasVelocity x, w.velX x, w.velY x, w.velZ x)

/-- The Genome component data of one entity slot. -/
def gView (w : WorldState) (x : ℕ) : Bool × ℕ :=
  (w.hasGenome x, w.genomeId x)

/-- The Phenotype component data of one entity slot. -/
def phView (w : WorldState) (x : ℕ) : Bool × ℚ × ℚ × ℚ × ℚ :=
  (w.hasPhenotype x, w.phenR x, w.phenG x, w.phenB x, w.phenSize x)

/-- The Stomach component data of one entity slot. -/
def stView (w : WorldState) (x : ℕ) : Bool × ℕ × ℚ :=
  (w.hasStomach x, w.stomachType x, w.stomachAmt x)

/-- The Energy component data of one entity slot. -/
def enView (w : WorldState) (x : ℕ) : Bool × ℚ × ℚ :=
  (w.hasEnergy x, w.energyCur x, w.energyMax x)

/-- The Mood component data of one entity slot. -/
def mdView (w : WorldState) (x : ℕ) : Bool × ℚ :=
  (w.hasMood x, w.happiness x)

/-- The CulturalTag component data of one entity slot. -/
def cuView (w : WorldState) (x : ℕ) : Bool × ℕ :=
  (w.hasCultural x, w.dancing x)

/-- A fold whose steps never change a per-slot view leaves that view
unchanged everywhere. -/
theorem foldl_view_frame {ρ : Type} (step : WorldState → ℕ × ℕ → WorldState)
    (read : WorldState → ℕ → ρ) (l : List (ℕ × ℕ))
    (hstep : ∀ w p, read (step w p) = read w) :
    ∀ w, read (l.foldl step w) = read w := by
  induction l with
  | nil => intro w; rfl
  | cons q l ih => intro w; rw [List.foldl_cons, ih (step w q), hstep w q]

/-- A fold whose steps never change a scalar view leaves it unchanged. -/
theorem foldl_scalar_frame {ρ : Type} (step : WorldState → ℕ × ℕ → WorldState)
    (read : WorldState → ρ) (l : List (ℕ × ℕ))
    (hstep : ∀ w p, read (step w p) = read w) :
    ∀ w, read (l.foldl step w) = read w := by
  induction l with
  | nil => intro w; rfl
  | cons q l ih => intro w; rw [List.foldl_cons, ih (step w q), hstep w q]

/-- A fold whose steps only write the slot named by each pair leaves every
slot outside the written set unchanged. -/
theorem foldl_entry_pframe {ρ : Type} (step : WorldState → ℕ × ℕ → WorldState)
    (read : WorldState → ℕ → ρ) (l : List (ℕ × ℕ))
    (hstep : ∀ w p x, x ≠ p.2 → read (step w p) x = read w x) :
    ∀ (w : WorldState) (x : ℕ), x ∉ l.map (fun q => q.2) →
      read (l.foldl step w) x = read w x := by
  induction l with
  | nil => intro w x _; rfl
  | cons q l ih =>
      intro w x hx
      have hx2 : x ≠ q.2 ∧ x ∉ l.map (fun q => q.2) := by
        simp only [List.map_cons, List.mem_cons] at hx
        push_neg at hx
        exact hx
      rw [List.foldl_cons, ih (step w q) x hx2.2]
      exact hstep w q x hx2.1

/-- A fold over pairs with pairwise distinct destination slots, whose steps
write the given target to the destination slot and leave other slots alone,
ends with each destination holding its target. -/
theorem foldl_entry_value {ρ : Type} (step : WorldState → ℕ × ℕ → WorldState)
    (read : WorldState → ℕ → ρ) (target : ℕ × ℕ → ρ) :
    ∀ (l : List (ℕ × ℕ)),
      (∀ w p, p ∈ l → read (step w p) p.2 = target p) →
      (∀ w p x, x ≠ p.2 → read (step w p) x = read w x) →
      ∀ (w : WorldState) (p : ℕ × ℕ), p ∈ l → (l.map (fun q => q.2)).Nodup →
        read (l.foldl step w) p.2 = target p := by
  intro l
  induction l with
  | nil => intro _ _ w p hp _; simp at hp
  | cons q l ih =>
      intro hval hframe w p hp hnd
      rw [List.foldl_cons]
      rcases List.mem_cons.mp hp with hp | hp
      · subst hp
        rw [foldl_entry_pframe step read l hframe (step w p) p.2
          (by simp only [List.map_cons] at hnd; exact (List.nodup_cons.mp hnd).1)]
        exact hval w p (List.mem_cons_self p l)
      · exact ih (fun w r hr => hval w r (List.mem_cons_of_mem q hr)) hframe (step w q) p hp
          (by simp only [List.map_cons] at hnd; exact (List.nodup_cons.mp hnd).2)

/-- Restoring one Position pair from a saved dense slice installs the saved
world's position triple (and the component flag) at the new id. -/
theorem restorePositionEntry_val (w0 w : WorldState) (p : ℕ × ℕ) (hp : p.1 < w0.nextEid) :
    pView (restorePositionEntry (savedComponents w0) w p) p.2 =
      (true, w0.posX p.1, w0.posY p.1, w0.posZ p.1) := by
  have hx : (savedComponents w0).posX[p.1]? = some (w0.posX p.1) := sliceArrQ_get _ _ _ hp
  have hy : (savedComponents w0).posY[p.1]? = some (w0.posY p.1) := sliceArrQ_get _ _ _ hp
  have hz : (savedComponents w0).posZ[p.1]? = some (w0.posZ p.1) := sliceArrQ_get _ _ _ hp
  simp [restorePositionEntry, hx, hy, hz, pView]

/-- Restoring one Position pair touches no slot other than its new id. -/
theorem restorePositionEntry_pframe (c : SavedComponents) (w : WorldState) (p : ℕ × ℕ)
    (x : ℕ) (hx : x ≠ p.2) : pView (restorePositionEntry c w p) x = pView w x := by
  simp only [restorePositionEntry]
  repeat' split
  all_goals simp [pView, upd, hx]

/-- Restoring a Position pair leaves the entity list, the allocator and
every other component untouched. -/
theorem restorePositionEntry_frame (c : SavedComponents) (w : WorldState) (p : ℕ × ℕ) :
    idView (restorePositionEntry c w p) = idView w ∧
    vView (restorePositionEntry c w p) = vView w ∧
    gView (restorePositionEntry c w p) = gView w ∧
    phView (restorePositionEntry c w p) = phView w ∧
    stView (restorePositionEntry c w p) = stView w ∧
    enView (restorePositionEntry c w p) = enView w ∧
    mdView (restorePositionEntry c w p) = mdView w ∧
    cuView (restorePositionEntry c w p) = cuView w := by
  refine ⟨?_, ?_, ?_, ?_, ?_, ?_, ?_, ?_⟩ <;>
    (simp only [restorePositionEntry]; repeat' split) <;> rfl

/-- Restoring one Velocity pair installs the saved velocity triple. -/
theorem restoreVelocityEntry_val (w0 w : WorldState) (p : ℕ × ℕ) (hp : p.1 < w0.nextEid) :
    vView (restoreVelocityEntry (savedComponents w0) w p) p.2 =
      (true, w0.velX p.1, w0.velY p.1, w0.velZ p.1) := by
  have hx : (savedComponents w0).velX[p.1]? = some (w0.velX p.1) := sliceArrQ_get _ _ _ hp
  have hy : (savedComponents w0).velY[p.1]? = some (w0.velY p.1) := sliceArrQ_get _ _ _ hp
  have hz : (savedComponents w0).velZ[p.1]? = some (w0.velZ p.1) := sliceArrQ_get _ _ _ hp
  simp [restoreVelocityEntry, hx, hy, hz, vView]

/-- Restoring one Velocity pair touches no slot other than its new id. -/
theorem restoreVelocityEntry_pframe (c : SavedComponents) (w : WorldState) (p : ℕ × ℕ)
    (x : ℕ) (hx : x ≠ p.2) : vView (restoreVelocityEntry c w p) x = vView w x := by
  simp only [restoreVelocityEntry]
  repeat' split
  all_goals simp [vView, upd, hx]

/-- Restoring a Velocity pair leaves everything but Velocity untouched. -/
theorem restoreVelocityEntry_frame (c : SavedComponents) (w : WorldState) (p : ℕ × ℕ) :
    idView (restoreVelocityEntry c w p) = idView w ∧
    pView (restoreVelocityEntry c w p) = pView w ∧
    gView (restoreVelocityEntry c w p) = gView w ∧
    phView (restoreVelocityEntry c w p) = phView w ∧
    stView (restoreVelocityEntry c w p) = stView w ∧
    enView (restoreVelocityEntry c w p) = enView w ∧
    mdView (restoreVelocityEntry c w p) = mdView w ∧
    cuView (restoreVelocityEntry c w p) = cuView w := by
  refine ⟨?_, ?_, ?_, ?_, ?_, ?_, ?_, ?_⟩ <;>
    (simp only [restoreVelocityEntry]; repeat' split) <;> rfl

/-- Restoring one Genome pair installs the saved genome id. -/
theorem restoreGenomeEntry_val (w0 w : WorldState) (p : ℕ × ℕ) (hp : p.1 < w0.nextEid) :
    gView (restoreGenomeEntry (savedComponents w0) w p) p.2 = (true, w0.genomeId p.1) := by
  have hx : (savedComponents w0).genomeId[p.1]? = some (w0.genomeId p.1) :=
    sliceArrN_get _ _ _ hp
  simp [restoreGenomeEntry, hx, gView]

/-- Restoring one Genome pair touches no slot other than its new id. -/
theorem restoreGenomeEntry_pframe (c : SavedComponents) (w : WorldState) (p : ℕ × ℕ)
    (x : ℕ) (hx : x ≠ p.2) : gView (restoreGenomeEntry c w p) x = gView w x := by
  simp only [restoreGenomeEntry]
  repeat' split
  all_goals simp [gView, upd, hx]

/-- Restoring a Genome pair leaves everything but Genome untouched. -/
theorem restoreGenomeEntry_frame (c : SavedComponents) (w : WorldState) (p : ℕ × ℕ) :
    idView (restoreGenomeEntry c w p) = idView w ∧
    pView (restoreGenomeEntry c w p) = pView w ∧
    vView (restoreGenomeEntry c w p) = vView w ∧
    phView (restoreGenomeEntry c w p) = phView w ∧
    stView (restoreGenomeEntry c w p) = stView w ∧
    enView (restoreGenomeEntry c w p) = enView w ∧
    mdView (restoreGenomeEntry c w p) = mdView w ∧
    cuView (restoreGenomeEntry c w p) = cuView w := by
  refine ⟨?_, ?_, ?_, ?_, ?_, ?_, ?_, ?_⟩ <;>
    (simp only [restoreGenomeEntry]; repeat' split) <;> rfl

/-- Restoring one Phenotype pair installs the saved phenotype quadruple. -/
theorem restorePhenotypeEntry_val (w0 w : WorldState) (p : ℕ × ℕ) (hp : p.1 < w0.nextEid) :
    phView (restorePhenotypeEntry (savedComponents w0) w p) p.2 =
      (true, w0.phenR p.1, w0.phenG p.1, w0.phenB p.1, w0.phenSize p.1) := by
  have hr : (savedComponents w0).phenR[p.1]? = some (w0.phenR p.1) := sliceArrQ_get _ _ _ hp
  have hg : (savedComponents w0).phenG[p.1]? = some (w0.phenG p.1) := sliceArrQ_get _ _ _ hp
  have hb : (savedComponents w0).phenB[p.1]? = some (w0.phenB p.1) := sliceArrQ_get _ _ _ hp
  have hs : (savedComponents w0).phenSize[p.1]? = some (w0.phenSize p.1) :=
    sliceArrQ_get _ _ _ hp
  simp [restorePhenotypeEntry, hr, hg, hb, hs, phView]

/-- Restoring one Phenotype pair touches no slot other than its new id. -/
theorem restorePhenotypeEntry_pframe (c : SavedComponents) (w : WorldState) (p : ℕ × ℕ)
    (x : ℕ) (hx : x ≠ p.2) : phView (restorePhenotypeEntry c w p) x = phView w x := by
  simp only [restorePhenotypeEntry]
  repeat' split
  all_goals simp [phView, upd, hx]

/-- Restoring a Phenotype pair leaves everything but Phenotype untouched. -/
theorem restorePhenotypeEntry_frame (c : SavedComponents) (w : WorldState) (p : ℕ × ℕ) :
    idView (restorePhenotypeEntry c w p) = idView w ∧
    pView (restorePhenotypeEntry c w p) = pView w ∧
    vView (restorePhenotypeEntry c w p) = vView w ∧
    gView (restorePhenotypeEntry c w p) = gView w ∧
    stView (restorePhenotypeEntry c w p) = stView w ∧
    enView (restorePhenotypeEntry c w p) = enView w ∧
    mdView (restorePhenotypeEntry c w p) = mdView w ∧
    cuView (restorePhenotypeEntry c w p) = cuView w := by
  refine ⟨?_, ?_, ?_, ?_, ?_, ?_, ?_, ?_⟩ <;>
    (simp only [restorePhenotypeEntry]; repeat' split) <;> rfl

/-- Restoring one Stomach pair installs the saved stomach contents. -/
theorem restoreStomachEntry_val (w0 w : WorldState) (p : ℕ × ℕ) (hp : p.1 < w0.nextEid) :
    stView (restoreStomachEntry (savedComponents w0) w p) p.2 =
      (true, w0.stomachType p.1, w0.stomachAmt p.1) := by
  have ht : (savedComponents w0).stomachType[p.1]? = some (w0.stomachType p.1) :=
    sliceArrN_get _ _ _ hp
  have ha : (savedComponents w0).stomachAmt[p.1]? = some (w0.stomachAmt p.1) :=
    sliceArrQ_get _ _ _ hp
  simp [restoreStomachEntry, ht, ha, stView]

/-- Restoring one Stomach pair touches no slot other than its new id. -/
theorem restoreStomachEntry_pframe (c : SavedComponents) (w : WorldState) (p : ℕ × ℕ)
    (x : ℕ) (hx : x ≠ p.2) : stView (restoreStomachEntry c w p) x = stView w x := by
  simp only [restoreStomachEntry]
  repeat' split
  all_goals simp [stView, upd, hx]

/-- Restoring a Stomach pair leaves everything but Stomach untouched. -/
theorem restoreStomachEntry_frame (c : SavedComponents) (w : WorldState) (p : ℕ × ℕ) :
    idView (restoreStomachEntry c w p) = idView w ∧
    pView (restoreStomachEntry c w p) = pView w ∧
    vView (restoreStomachEntry c w p) = vView w ∧
    gView (restoreStomachEntry c w p) = gView w ∧
    phView (restoreStomachEntry c w p) = phView w ∧
    enView (restoreStomachEntry c w p) = enView w ∧
    mdView (restoreStomachEntry c w p) = mdView w ∧
    cuView (restoreStomachEntry c w p) = cuView w := by
  refine ⟨?_, ?_, ?_, ?_, ?_, ?_, ?_, ?_⟩ <;>
    (simp only [restoreStomachEntry]; repeat' split) <;> rfl

/-- Restoring one Energy pair installs the saved energy pair. -/
theorem restoreEnergyEntry_val (w0 w : WorldState) (p : ℕ × ℕ) (hp : p.1 < w0.nextEid) :
    enView (restoreEnergyEntry (savedComponents w0) w p) p.2 =
      (true, w0.energyCur p.1, w0.energyMax p.1) := by
  have hc : (savedComponents w0).energyCur[p.1]? = some (w0.energyCur p.1) :=
    sliceArrQ_get _ _ _ hp
  have hm : (savedComponents w0).energyMax[p.1]? = some (w0.energyMax p.1) :=
    sliceArrQ_get _ _ _ hp
  simp [restoreEnergyEntry, hc, hm, enView]

/-- Restoring one Energy pair touches no slot other than its new id. -/
theorem restoreEnergyEntry_pframe (c : SavedComponents) (w : WorldState) (p : ℕ × ℕ)
    (x : ℕ) (hx : x ≠ p.2) : enView (restoreEnergyEntry c w p) x = enView w x := by
  simp only [restoreEnergyEntry]
  repeat' split
  all_goals simp [enView, upd, hx]

/-- Restoring an Energy pair leaves everything but Energy untouched. -/
theorem restoreEnergyEntry_frame (c : SavedComponents) (w : WorldState) (p : ℕ × ℕ) :
    idView (restoreEnergyEntry c w p) = idView w ∧
    pView (restoreEnergyEntry c w p) = pView w ∧
    vView (restoreEnergyEntry c w p) = vView w ∧
    gView (restoreEnergyEntry c w p) = gView w ∧
    phView (restoreEnergyEntry c w p) = phView w ∧
    stView (restoreEnergyEntry c w p) = stView w ∧
    mdView (restoreEnergyEntry c w p) = mdView w ∧
    cuView (restoreEnergyEntry c w p) = cuView w := by
  refine ⟨?_, ?_, ?_, ?_, ?_, ?_, ?_, ?_⟩ <;>
    (simp only [restoreEnergyEntry]; repeat' split) <;> rfl

/-- Restoring one Mood pair installs the saved happiness. -/
theorem restoreMoodEntry_val (w0 w : WorldState) (p : ℕ × ℕ) (hp : p.1 < w0.nextEid) :
    mdView (restoreMoodEntry (savedComponents w0) w p) p.2 = (true, w0.happiness p.1) := by
  have hh : (savedComponents w0).happiness[p.1]? = some (w0.happiness p.1) :=
    sliceArrQ_get _ _ _ hp
  simp [restoreMoodEntry, hh, mdView]

/-- Restoring one Mood pair touches no slot other than its new id. -/
theorem restoreMoodEntry_pframe (c : SavedComponents) (w : WorldState) (p : ℕ × ℕ)
    (x : ℕ) (hx : x ≠ p.2) : mdView (restoreMoodEntry c w p) x = mdView w x := by
  simp only [restoreMoodEntry]
  repeat' split
  all_goals simp [mdView, upd, hx]

/-- Restoring a Mood pair leaves everything but Mood untouched. -/
theorem restoreMoodEntry_frame (c : SavedComponents) (w : WorldState) (p : ℕ × ℕ) :
    idView (restoreMoodEntry c w p) = idView w ∧
    pView (restoreMoodEntry c w p) = pView w ∧
    vView (restoreMoodEntry c w p) = vView w ∧
    gView (restoreMoodEntry c w p) = gView w ∧
    phView (restoreMoodEntry c w p) = phView w ∧
    stView (restoreMoodEntry c w p) = stView w ∧
    enView (restoreMoodEntry c w p) = enView w ∧
    cuView (restoreMoodEntry c w p) = cuView w := by
  refine ⟨?_, ?_, ?_, ?_, ?_, ?_, ?_, ?_⟩ <;>
    (simp only [restoreMoodEntry]; repeat' split) <;> rfl

/-- Restoring one CulturalTag pair installs the saved dancing flag. -/
theorem restoreCulturalEntry_val (w0 w : WorldState) (p : ℕ × ℕ) (hp : p.1 < w0.nextEid) :
    cuView (restoreCulturalEntry (savedComponents w0) w p) p.2 = (true, w0.dancing p.1) := by
  have hd : (savedComponents w0).dancing[p.1]? = some (w0.dancing p.1) :=
    sliceArrN_get _ _ _ hp
  simp [restoreCulturalEntry, hd, cuView]

/-- Restoring one CulturalTag pair touches no slot other than its new id. -/
theorem restoreCulturalEntry_pframe (c : SavedComponents) (w : WorldState) (p : ℕ × ℕ)
    (x : ℕ) (hx : x ≠ p.2) : cuView (restoreCulturalEntry c w p) x = cuView w x := by
  simp only [restoreCulturalEntry]
  repeat' split
  all_goals simp [cuView, upd, hx]

/-- Restoring a CulturalTag pair leaves everything but CulturalTag
untouched. -/
theorem restoreCulturalEntry_frame (c : SavedComponents) (w : WorldState) (p : ℕ × ℕ) :
    idView (restoreCulturalEntry c w p) = idView w ∧
    pView (restoreCulturalEntry c w p) = pView w ∧
    vView (restoreCulturalEntry c w p) = vView w ∧
    gView (restoreCulturalEntry c w p) = gView w ∧
    phView (restoreCulturalEntry c w p) = phView w ∧
    stView (restoreCulturalEntry c w p) = stView w ∧
    enView (restoreCulturalEntry c w p) = enView w ∧
    mdView (restoreCulturalEntry c w p) = mdView w := by
  refine ⟨?_, ?_, ?_, ?_, ?_, ?_, ?_, ?_⟩ <;>
    (simp only [restoreCulturalEntry]; repeat' split) <;> rfl

/-- The full component restore never touches the entity list or the id
allocator. -/
theorem restoreAll_idView (c : SavedComponents) (φ : List (ℕ × ℕ)) (w : WorldState) :
    idView (restoreAllComponents c φ w) = idView w := by
  simp only [restoreAllComponents, restorePosition, restoreVelocity, restoreGenome,
    restorePhenotype, restoreStomach, restoreEnergy, restoreMood, restoreCultural]
  rw [foldl_scalar_frame _ idView φ (fun w q => (restoreCulturalEntry_frame _ w q).1)]
  rw [foldl_scalar_frame _ idView φ (fun w q => (restoreMoodEntry_frame _ w q).1)]
  rw [foldl_scalar_frame _ idView φ (fun w q => (restoreEnergyEntry_frame _ w q).1)]
  rw [foldl_scalar_frame _ idView φ (fun w q => (restoreStomachEntry_frame _ w q).1)]
  rw [foldl_scalar_frame _ idView φ (fun w q => (restorePhenotypeEntry_frame _ w q).1)]
  rw [foldl_scalar_frame _ idView φ (fun w q => (restoreGenomeEntry_frame _ w q).1)]
  rw [foldl_scalar_frame _ idView φ (fun w q => (restoreVelocityEntry_frame _ w q).1)]
  rw [foldl_scalar_frame _ idView φ (fun w q => (restorePositionEntry_frame _ w q).1)]

/-- After the full restore from a dense save, each mapped slot holds the
saved world's Position data of its old id. -/
theorem restoreAll_pView (w0 : WorldState) (φ : List (ℕ × ℕ)) (w : WorldState)
    (hnd : (φ.map (fun q => q.2)).Nodup) (hd : ∀ p ∈ φ, p.1 < w0.nextEid)
    (p : ℕ × ℕ) (hp : p ∈ φ) :
    pView (restoreAllComponents (savedComponents w0) φ w) p.2 =
      (true, w0.posX p.1, w0.posY p.1, w0.posZ p.1) := by
  simp only [restoreAllComponents, restorePosition, restoreVelocity, restoreGenome,
    restorePhenotype, restoreStomach, restoreEnergy, restoreMood, restoreCultural]
  rw [foldl_view_frame _ pView φ (fun w q => (restoreCulturalEntry_frame _ w q).2.1)]
  rw [foldl_view_frame _ pView φ (fun w q => (restoreMoodEntry_frame _ w q).2.1)]
  rw [foldl_view_frame _ pView φ (fun w q => (restoreEnergyEntry_frame _ w q).2.1)]
  rw [foldl_view_frame _ pView φ (fun w q => (restoreStomachEntry_frame _ w q).2.1)]
  rw [foldl_view_frame _ pView φ (fun w q => (restorePhenotypeEntry_frame _ w q).2.1)]
  rw [foldl_view_frame _ pView φ (fun w q => (restoreGenomeEntry_frame _ w q).2.1)]
  rw [foldl_view_frame _ pView φ (fun w q => (restoreVelocityEntry_frame _ w q).2.1)]
  exact foldl_entry_value _ pView (fun q => (true, w0.posX q.1, w0.posY q.1, w0.posZ q.1)) φ
    (fun w q hq => restorePositionEntry_val w0 w q (hd q hq))
    (fun w q x hx => restorePositionEntry_pframe _ w q x hx) w p hp hnd

/-- After the full restore, each mapped slot holds the saved Velocity
data of its old id. -/
theorem restoreAll_vView (w0 : WorldState) (φ : List (ℕ × ℕ)) (w : WorldState)
    (hnd : (φ.map (fun q => q.2)).Nodup) (hd : ∀ p ∈ φ, p.1 < w0.nextEid)
    (p : ℕ × ℕ) (hp : p ∈ φ) :
    vView (restoreAllComponents (savedComponents w0) φ w) p.2 =
      (true, w0.velX p.1, w0.velY p.1, w0.velZ p.1) := by
  simp only [restoreAllComponents, restorePosition, restoreVelocity, restoreGenome,
    restorePhenotype, restoreStomach, restoreEnergy, restoreMood, restoreCultural]
  rw [foldl_view_frame _ vView φ (fun w q => (restoreCulturalEntry_frame _ w q).2.2.1)]
  rw [foldl_view_frame _ vView φ (fun w q => (restoreMoodEntry_frame _ w q).2.2.1)]
  rw [foldl_view_frame _ vView φ (fun w q => (restoreEnergyEntry_frame _ w q).2.2.1)]
  rw [foldl_view_frame _ vView φ (fun w q => (restoreStomachEntry_frame _ w q).2.2.1)]
  rw [foldl_view_frame _ vView φ (fun w q => (restorePhenotypeEntry_frame _ w q).2.2.1)]
  rw [foldl_view_frame _ vView φ (fun w q => (restoreGenomeEntry_frame _ w q).2.2.1)]
  exact foldl_entry_value _ vView (fun q => (true, w0.velX q.1, w0.velY q.1, w0.velZ q.1)) φ
    (fun w q hq => restoreVelocityEntry_val w0 w q (hd q hq))
    (fun w q x hx => restoreVelocityEntry_pframe _ w q x hx) _ p hp hnd

/-- After the full restore, each mapped slot holds the saved Genome data
of its old id. -/
theorem restoreAll_gView (w0 : WorldState) (φ : List (ℕ × ℕ)) (w : WorldState)
    (hnd : (φ.map (fun q => q.2)).Nodup) (hd : ∀ p ∈ φ, p.1 < w0.nextEid)
    (p : ℕ × ℕ) (hp : p ∈ φ) :
    gView (restoreAllComponents (savedComponents w0) φ w) p.2 =
      (true, w0.genomeId p.1) := by
  simp only [restoreAllComponents, restorePosition, restoreVelocity, restoreGenome,
    restorePhenotype, restoreStomach, restoreEnergy, restoreMood, restoreCultural]
  rw [foldl_view_frame _ gView φ (fun w q => (restoreCulturalEntry_frame _ w q).2.2.2.1)]
  rw [foldl_view_frame _ gView φ (fun w q => (restoreMoodEntry_frame _ w q).2.2.2.1)]
  rw [foldl_view_frame _ gView φ (fun w q => (restoreEnergyEntry_frame _ w q).2.2.2.1)]
  rw [foldl_view_frame _ gView φ (fun w q => (restoreStomachEntry_frame _ w q).2.2.2.1)]
  rw [foldl_view_frame _ gView φ (fun w q => (restorePhenotypeEntry_frame _ w q).2.2.2.1)]
  exact foldl_entry_value _ gView (fun q => (true, w0.genomeId q.1)) φ
    (fun w q hq => restoreGenomeEntry_val w0 w q (hd q hq))
    (fun w q x hx => restoreGenomeEntry_pframe _ w q x hx) _ p hp hnd

/-- After the full restore, each mapped slot holds the saved Phenotype
data of its old id. -/
theorem restoreAll_phView (w0 : WorldState) (φ : List (ℕ × ℕ)) (w : WorldState)
    (hnd : (φ.map (fun q => q.2)).Nodup) (hd : ∀ p ∈ φ, p.1 < w0.nextEid)
    (p : ℕ × ℕ) (hp : p ∈ φ) :
    phView (restoreAllComponents (savedComponents w0) φ w) p.2 =
      (true, w0.phenR p.1, w0.phenG p.1, w0.phenB p.1, w0.phenSize p.1) := by
  simp only [restoreAllComponents, restorePosition, restoreVelocity, restoreGenome,
    restorePhenotype, restoreStomach, restoreEnergy, restoreMood, restoreCultural]
  rw [foldl_view_frame _ phView φ (fun w q => (restoreCulturalEntry_frame _ w q).2.2.2.2.1)]
  rw [foldl_view_frame _ phView φ (fun w q => (restoreMoodEntry_frame _ w q).2.2.2.2.1)]
  rw [foldl_view_frame _ phView φ (fun w q => (restoreEnergyEntry_frame _ w q).2.2.2.2.1)]
  rw [foldl_view_frame _ phView φ (fun w q => (restoreStomachEntry_frame _ w q).2.2.2.2.1)]
  exact foldl_entry_value _ phView
    (fun q => (true, w0.phenR q.1, w0.phenG q.1, w0.phenB q.1, w0.phenSize q.1)) φ
    (fun w q hq => restorePhenotypeEntry_val w0 w q (hd q hq))
    (fun w q x hx => restorePhenotypeEntry_pframe _ w q x hx) _ p hp hnd

/-- After the full restore, each mapped slot holds the saved Stomach data
of its old id. -/
theorem restoreAll_stView (w0 : WorldState) (φ : List (ℕ × ℕ)) (w : WorldState)
    (hnd : (φ.map (fun q => q.2)).Nodup) (hd : ∀ p ∈ φ, p.1 < w0.nextEid)
    (p : ℕ × ℕ) (hp : p ∈ φ) :
    stView (restoreAllComponents (savedComponents w0) φ w) p.2 =
      (true, w0.stomachType p.1, w0.stomachAmt p.1) := by
  simp only [restoreAllComponents, restorePosition, restoreVelocity, restoreGenome,
    restorePhenotype, restoreStomach, restoreEnergy, restoreMood, restoreCultural]
  rw [foldl_view_frame _ stView φ (fun w q => (restoreCulturalEntry_frame _ w q).2.2.2.2.2.1)]
  rw [foldl_view_frame _ stView φ (fun w q => (restoreMoodEntry_frame _ w q).2.2.2.2.2.1)]
  rw [foldl_view_frame _ stView φ (fun w q => (restoreEnergyEntry_frame _ w q).2.2.2.2.2.1)]
  exact foldl_entry_value _ stView (fun q => (true, w0.stomachType q.1, w0.stomachAmt q.1)) φ
    (fun w q hq => restoreStomachEntry_val w0 w q (hd q hq))
    (fun w q x hx => restoreStomachEntry_pframe _ w q x hx) _ p hp hnd

/-- After the full restore, each mapped slot holds the saved Energy data
of its old id. -/
theorem restoreAll_enView (w0 : WorldState) (φ : List (ℕ × ℕ)) (w : WorldState)
    (hnd : (φ.map (fun q => q.2)).Nodup) (hd : ∀ p ∈ φ, p.1 < w0.nextEid)
    (p : ℕ × ℕ) (hp : p ∈ φ) :
    enView (restoreAllComponents (savedComponents w0) φ w) p.2 =
      (true, w0.energyCur p.1, w0.energyMax p.1) := by
  simp only [restoreAllComponents, restorePosition, restoreVelocity, restoreGenome,
    restorePhenotype, restoreStomach, restoreEnergy, restoreMood, restoreCultural]
  rw [foldl_view_frame _ enView φ
    (fun w q => (restoreCulturalEntry_frame _ w q).2.2.2.2.2.2.1)]
  rw [foldl_view_frame _ enView φ (fun w q => (restoreMoodEntry_frame _ w q).2.2.2.2.2.2.1)]
  exact foldl_entry_value _ enView (fun q => (true, w0.energyCur q.1, w0.energyMax q.1)) φ
    (fun w q hq => restoreEnergyEntry_val w0 w q (hd q hq))
    (fun w q x hx => restoreEnergyEntry_pframe _ w q x hx) _ p hp hnd

/-- After the full restore, each mapped slot holds the saved Mood data of
its old id. -/
theorem restoreAll_mdView (w0 : WorldState) (φ : List (ℕ × ℕ)) (w : WorldState)
    (hnd : (φ.map (fun q => q.2)).Nodup) (hd : ∀ p ∈ φ, p.1 < w0.nextEid)
    (p : ℕ × ℕ) (hp : p ∈ φ) :
    mdView (restoreAllComponents (savedComponents w0) φ w) p.2 =
      (true, w0.happiness p.1) := by
  simp only [restoreAllComponents, restorePosition, restoreVelocity, restoreGenome,
    restorePhenotype, restoreStomach, restoreEnergy, restoreMood, restoreCultural]
  rw [foldl_view_frame _ mdView φ
    (fun w q => (restoreCulturalEntry_frame _ w q).2.2.2.2.2.2.2)]
  exact foldl_entry_value _ mdView (fun q => (true, w0.happiness q.1)) φ
    (fun w q hq => restoreMoodEntry_val w0 w q (hd q hq))
    (fun w q x hx => restoreMoodEntry_pframe _ w q x hx) _ p hp hnd

/-- After the full restore, each mapped slot holds the saved CulturalTag
data of its old id. -/
theorem restoreAll_cuView (w0 : WorldState) (φ : List (ℕ × ℕ)) (w : WorldState)
    (hnd : (φ.map (fun q => q.2)).Nodup) (hd : ∀ p ∈ φ, p.1 < w0.nextEid)
    (p : ℕ × ℕ) (hp : p ∈ φ) :
    cuView (restoreAllComponents (savedComponents w0) φ w) p.2 =
      (true, w0.dancing p.1) := by
  simp only [restoreAllComponents, restorePosition, restoreVelocity, restoreGenome,
    restorePhenotype, restoreStomach, restoreEnergy, restoreMood, restoreCultural]
  exact foldl_entry_value _ cuView (fun q => (true, w0.dancing q.1)) φ
    (fun w q hq => restoreCulturalEntry_val w0 w q (hd q hq))
    (fun w q x hx => restoreCulturalEntry_pframe _ w q x hx) _ p hp hnd

theorem jsMapGet_singleton {κ α : Type} [DecidableEq κ] (k0 : κ) (v0 : α) (x : κ) :
    jsMapGet [(k0, v0)] x = if k0 = x then some v0 else none := by
  rw [jsMapGet]
  by_cases h : k0 = x
  · rw [List.find?_cons_of_pos _ (by simpa using h), if_pos h]
    rfl
  · rw [List.find?_cons_of_neg _ (by simpa using h), if_neg h]
    rfl

theorem jsMapGet_push_self {κ α : Type} [DecidableEq κ] (m : List (κ × α)) (k : κ) (v : α)
    (h : jsMapGet m k = none) : jsMapGet (m ++ [(k, v)]) k = some v := by
  rw [jsMapGet_append, h, Option.none_or, jsMapGet_singleton, if_pos rfl]

theorem jsMapGet_push_other {κ α : Type} [DecidableEq κ] (m : List (κ × α)) (k : κ) (v : α)
    (x : κ) (h : x ≠ k) : jsMapGet (m ++ [(k, v)]) x = jsMapGet m x := by
  rw [jsMapGet_append, jsMapGet_singleton, if_neg (fun hk => h hk.symm), Option.or_none]

theorem jsMapGet_push_pres {κ α : Type} [DecidableEq κ] (m : List (κ × α)) (k : κ) (v : α)
    (x : κ) (w : α) (h : jsMapGet m x = some w) : jsMapGet (m ++ [(k, v)]) x = some w := by
  rw [jsMapGet_append, h]
  rfl

/-- An association list lookup returns the payload of any listed pair when
the keys are pairwise distinct. -/
theorem jsMapGet_of_mem_nodup {κ α : Type} [DecidableEq κ] :
    ∀ (l : List (κ × α)), (l.map (fun p => p.1)).Nodup →
      ∀ p ∈ l, jsMapGet l p.1 = some p.2 := by
  intro l
  induction l with
  | nil => intro _ p hp; simp at hp
  | cons r l ih =>
      intro hnd p hp
      rcases List.mem_cons.mp hp with hp | hp
      · subst hp
        rw [jsMapGet, List.find?_cons_of_pos _ (by simp)]
        rfl
      · have hne : r.1 ≠ p.1 := by
          intro hcon
          simp only [List.map_cons, List.nodup_cons] at hnd
          exact hnd.1 (hcon ▸ List.mem_map_of_mem (fun p => p.1) hp)
        rw [jsMapGet, List.find?_cons_of_neg _ (by simpa using hne), ← jsMapGet]
        exact ih (by simp only [List.map_cons, List.nodup_cons] at hnd; exact hnd.2) p hp

/-- Characterization of the inner fold of the relationship remap, relative
to an accumulator disjoint from the images of the remaining targets. -/
theorem remapInner_go (φ : List (ℕ × ℕ))
    (hinj : ∀ a b i, jsMapGet φ a = some i → jsMapGet φ b = some i → a = b) :
    ∀ (m : List (ℕ × ℚ)) (acc : List (ℕ × ℚ)),
      (∀ q ∈ m, (jsMapGet φ q.1).isSome) →
      (m.map (fun q => q.1)).Nodup →
      (∀ q ∈ m, ∀ nt, jsMapGet φ q.1 = some nt → jsMapGet acc nt = none) →
      (∀ x v, jsMapGet (m.foldl (remapInnerStep φ) acc) x = some v →
        jsMapGet acc x = some v ∨ ∃ q, q ∈ m ∧ jsMapGet φ q.1 = some x ∧ q.2 = v) ∧
      (∀ q ∈ m, ∀ nt, jsMapGet φ q.1 = some nt →
        jsMapGet (m.foldl (remapInnerStep φ) acc) nt = some q.2) ∧
      (∀ x v, jsMapGet acc x = some v →
        jsMapGet (m.foldl (remapInnerStep φ) acc) x = some v) := by
  intro m
  induction m with
  | nil =>
      intro acc _ _ _
      exact ⟨fun x v h => Or.inl h, fun q hq => absurd hq (by simp), fun x v h => h⟩
  | cons q m ih =>
      intro acc hsome hnd hdisj
      obtain ⟨nt, hnt⟩ := Option.isSome_iff_exists.mp (hsome q (List.mem_cons_self q m))
      have hstep : remapInnerStep φ acc q = acc ++ [(nt, q.2)] := by
        rw [remapInnerStep, hnt]
        exact jsMapSet_append_of_none _ _ _ (hdisj q (List.mem_cons_self q m) nt hnt)
      have hker : q.1 ∉ m.map (fun r => r.1) := by
        simp only [List.map_cons, List.nodup_cons] at hnd
        exact hnd.1
      have hdisj2 : ∀ r ∈ m, ∀ nr, jsMapGet φ r.1 = some nr →
          jsMapGet (acc ++ [(nt, q.2)]) nr = none := by
        intro r hr nr hnr
        have hne : nr ≠ nt := by
          intro hcon
          subst hcon
          exact hker ((hinj r.1 q.1 nr hnr hnt) ▸ List.mem_map_of_mem (fun r => r.1) hr)
        rw [jsMapGet_push_other _ _ _ _ hne]
        exact hdisj r (List.mem_cons_of_mem q hr) nr hnr
      have hndm : (m.map (fun r => r.1)).Nodup := by
        simp only [List.map_cons, List.nodup_cons] at hnd
        exact hnd.2
      have hsm : ∀ r ∈ m, (jsMapGet φ r.1).isSome :=
        fun r hr => hsome r (List.mem_cons_of_mem q hr)
      obtain ⟨ihC, ihV, ihP⟩ := ih (acc ++ [(nt, q.2)]) hsm hndm hdisj2
      rw [List.foldl_cons, hstep]
      refine ⟨?_, ?_, ?_⟩
      · intro x v h
        rcases ihC x v h with h2 | ⟨r, hr, hx, hv⟩
        · by_cases hx : x = nt
          · rw [hx] at h2
            rw [jsMapGet_push_self _ _ _ (hdisj q (List.mem_cons_self q m) nt hnt)] at h2
            refine Or.inr ⟨q, List.mem_cons_self q m, ?_, ?_⟩
            · rw [hx]; exact hnt
            · exact Option.some_injective _ h2
          · rw [jsMapGet_push_other _ _ _ _ hx] at h2
            exact Or.inl h2
        · exact Or.inr ⟨r, List.mem_cons_of_mem q hr, hx, hv⟩
      · intro r hr nr hnr
        rcases List.mem_cons.mp hr with hr | hr
        · have hq1 : nr = nt := by
            rw [hr] at hnr
            rw [hnr] at hnt
            injection hnt
          have hv : r.2 = q.2 := by rw [hr]
          rw [hq1, hv]
          exact ihP nt q.2 (jsMapGet_push_self _ _ _
            (hdisj q (List.mem_cons_self q m) nt hnt))
        · exact ihV r hr nr hnr
      · intro x v h
        by_cases hx : x = nt
        · subst hx
          rw [hdisj q (List.mem_cons_self q m) x hnt] at h
          exact absurd h (by simp)
        · refine ihP x v ?_
          rw [jsMapGet_push_other _ _ _ _ hx]
          exact h

/-- Characterization of the outer fold of the relationship remap, relative
to an accumulator disjoint from the images of the remaining initiators. -/
theorem remapOuter_go (φ : List (ℕ × ℕ))
    (hinj : ∀ a b i, jsMapGet φ a = some i → jsMapGet φ b = some i → a = b) :
    ∀ (rels acc : List (ℕ × List (ℕ × ℚ))),
      (∀ pr ∈ rels, (jsMapGet φ pr.1).isSome) →
      (rels.map (fun pr => pr.1)).Nodup →
      (∀ pr ∈ rels, ∀ ni, jsMapGet φ pr.1 = some ni → jsMapGet acc ni = none) →
      (∀ x innr, jsMapGet (rels.foldl (remapOuterStep φ) acc) x = some innr →
        jsMapGet acc x = some innr ∨
        ∃ pr, pr ∈ rels ∧ jsMapGet φ pr.1 = some x ∧
          innr = pr.2.foldl (remapInnerStep φ) [] ∧ 0 < innr.length) ∧
      (∀ pr ∈ rels, ∀ ni, jsMapGet φ pr.1 = some ni →
        jsMapGet (rels.foldl (remapOuterStep φ) acc) ni =
          (if 0 < (pr.2.foldl (remapInnerStep φ) []).length
           then some (pr.2.foldl (remapInnerStep φ) []) else none)) ∧
      (∀ x innr, jsMapGet acc x = some innr →
        jsMapGet (rels.foldl (remapOuterStep φ) acc) x = some innr) ∧
      (∀ x, jsMapGet acc x = none →
        (∀ pr ∈ rels, ∀ ni, jsMapGet φ pr.1 = some ni → ni ≠ x) →
        jsMapGet (rels.foldl (remapOuterStep φ) acc) x = none) := by
  intro rels
  induction rels with
  | nil =>
      intro acc _ _ _
      exact ⟨fun x innr h => Or.inl h, fun pr hpr => absurd hpr (by simp),
        fun x innr h => h, fun x h _ => h⟩
  | cons pr rels ih =>
      intro acc hsome hnd hdisj
      obtain ⟨ni, hni⟩ := Option.isSome_iff_exists.mp (hsome pr (List.mem_cons_self pr rels))
      have hker : pr.1 ∉ rels.map (fun r => r.1) := by
        simp only [List.map_cons, List.nodup_cons] at hnd
        exact hnd.1
      have hndm : (rels.map (fun r => r.1)).Nodup := by
        simp only [List.map_cons, List.nodup_cons] at hnd
        exact hnd.2
      have hsm : ∀ r ∈ rels, (jsMapGet φ r.1).isSome :=
        fun r hr => hsome r (List.mem_cons_of_mem pr hr)
      have hnidiff : ∀ r ∈ rels, ∀ nr, jsMapGet φ r.1 = some nr → nr ≠ ni := by
        intro r hr nr hnr hcon
        subst hcon
        exact hker ((hinj r.1 pr.1 nr hnr hni) ▸ List.mem_map_of_mem (fun r => r.1) hr)
      by_cases hlen : 0 < (pr.2.foldl (remapInnerStep φ) []).length
      · have hstep : remapOuterStep φ acc pr =
            acc ++ [(ni, pr.2.foldl (remapInnerStep φ) [])] := by
          simp only [remapOuterStep, hni, gt_iff_lt]
          rw [if_pos hlen]
          exact jsMapSet_append_of_none _ _ _
            (hdisj pr (List.mem_cons_self pr rels) ni hni)
        have hdisj2 : ∀ r ∈ rels, ∀ nr, jsMapGet φ r.1 = some nr →
            jsMapGet (acc ++ [(ni, pr.2.foldl (remapInnerStep φ) [])]) nr = none := by
          intro r hr nr hnr
          rw [jsMapGet_push_other _ _ _ _ (hnidiff r hr nr hnr)]
          exact hdisj r (List.mem_cons_of_mem pr hr) nr hnr
        obtain ⟨ihC, ihV, ihP, ihN⟩ :=
          ih (acc ++ [(ni, pr.2.foldl (remapInnerStep φ) [])]) hsm hndm hdisj2
        rw [List.foldl_cons, hstep]
        refine ⟨?_, ?_, ?_, ?_⟩
        · intro x innr h
          rcases ihC x innr h with h2 | ⟨r, hr, hx, hin, hpos⟩
          · by_cases hx : x = ni
            · rw [hx] at h2
              rw [jsMapGet_push_self _ _ _
                (hdisj pr (List.mem_cons_self pr rels) ni hni)] at h2
              refine Or.inr ⟨pr, List.mem_cons_self pr rels, ?_, ?_, ?_⟩
              · rw [hx]; exact hni
              · exact (Option.some_injective _ h2).symm
              · rw [← Option.some_injective _ h2]
                exact hlen
            · rw [jsMapGet_push_other _ _ _ _ hx] at h2
              exact Or.inl h2
          · exact Or.inr ⟨r, List.mem_cons_of_mem pr hr, hx, hin, hpos⟩
        · intro r hr nr hnr
          rcases List.mem_cons.mp hr with hr | hr
          · have hq1 : nr = ni := by
              rw [hr] at hnr
              rw [hnr] at hni
              injection hni
            have hv : r.2 = pr.2 := by rw [hr]
            rw [hq1, hv, if_pos (by rw [← hv]; rw [hv]; exact hlen)]
            exact ihP ni _ (jsMapGet_push_self _ _ _
              (hdisj pr (List.mem_cons_self pr rels) ni hni))
          · exact ihV r hr nr hnr
        · intro x innr h
          exact ihP x innr (jsMapGet_push_pres _ _ _ _ _ h)
        · intro x hx hno
          have hnix : ni ≠ x := hno pr (List.mem_cons_self pr rels) ni hni
          refine ihN x ?_ (fun r hr nr hnr => hno r (List.mem_cons_of_mem pr hr) nr hnr)
          rw [jsMapGet_push_other _ _ _ _ (fun hc => hnix hc.symm)]
          exact hx
      · have hstep : remapOuterStep φ acc pr = acc := by
          simp only [remapOuterStep, hni, gt_iff_lt]
          rw [if_neg hlen]
        obtain ⟨ihC, ihV, ihP, ihN⟩ := ih acc hsm hndm
          (fun r hr nr hnr => hdisj r (List.mem_cons_of_mem pr hr) nr hnr)
        rw [List.foldl_cons, hstep]
        refine ⟨?_, ?_, ?_, ?_⟩
        · intro x innr h
          rcases ihC x innr h with h2 | ⟨r, hr, hx, hin, hpos⟩
          · exact Or.inl h2
          · exact Or.inr ⟨r, List.mem_cons_of_mem pr hr, hx, hin, hpos⟩
        · intro r hr nr hnr
          rcases List.mem_cons.mp hr with hr | hr
          · have hq1 : nr = ni := by
              rw [hr] at hnr
              rw [hnr] at hni
              injection hni
            have hv : r.2 = pr.2 := by rw [hr]
            rw [hq1, hv, if_neg hlen]
            refine ihN ni (hdisj pr (List.mem_cons_self pr rels) ni hni) ?_
            exact fun r2 hr2 nr2 hnr2 => hnidiff r2 hr2 nr2 hnr2
          · exact ihV r hr nr hnr
        · exact ihP
        · intro x hx hno
          exact ihN x hx (fun r hr nr hnr => hno r (List.mem_cons_of_mem pr hr) nr hnr)

theorem jsMapGet_isSome_of_mem {κ α : Type} [DecidableEq κ] (l : List (κ × α)) (p : κ × α)
    (hp : p ∈ l) : (jsMapGet l p.1).isSome := by
  rw [jsMapGet]
  have h1 : (l.find? (fun r => r.1 = p.1)).isSome := List.find?_isSome.mpr ⟨p, hp, by simp⟩
  obtain ⟨r, hr⟩ := Option.isSome_iff_exists.mp h1
  rw [hr]
  rfl

theorem jsMapGet_some_elim {κ α : Type} [DecidableEq κ] (l : List (κ × α)) (k : κ) (v : α)
    (h : jsMapGet l k = some v) : ∃ p, p ∈ l ∧ p.1 = k ∧ p.2 = v := by
  rw [jsMapGet] at h
  obtain ⟨p, hfind, hv⟩ := Option.map_eq_some'.mp h
  refine ⟨p, List.mem_of_find?_eq_some hfind, ?_, hv⟩
  have := List.find?_some hfind
  simpa using this

/-- The relationship remap is lookup-faithful on mapped endpoints: reading
the remapped graph at the images equals reading the saved graph at the
originals. -/
theorem remap_forward (φ : List (ℕ × ℕ)) (rel : List (ℕ × List (ℕ × ℚ)))
    (hinj : ∀ a b i, jsMapGet φ a = some i → jsMapGet φ b = some i → a = b)
    (houter : (rel.map (fun pr => pr.1)).Nodup)
    (hom : ∀ pr ∈ rel, (jsMapGet φ pr.1).isSome)
    (him : ∀ pr ∈ rel, ∀ q ∈ pr.2, (jsMapGet φ q.1).isSome)
    (hinn : ∀ pr ∈ rel, (pr.2.map (fun q => q.1)).Nodup)
    (a b ia ib : ℕ) (ha : jsMapGet φ a = some ia) (hb : jsMapGet φ b = some ib) :
    relLookup (remapRelationships φ rel) ia ib = relLookup rel a b := by
  obtain ⟨OC, OV, OP, ON⟩ := remapOuter_go φ hinj rel [] hom houter (fun _ _ _ _ => rfl)
  rw [remapRelationships, relLookup, relLookup]
  cases hga : jsMapGet rel a with
  | none =>
      have hF : jsMapGet (rel.foldl (remapOuterStep φ) []) ia = none := by
        refine ON ia rfl ?_
        intro pr hpr ni hni hcon
        have hpa : pr.1 = a := hinj pr.1 a ia (hcon ▸ hni) ha
        have := jsMapGet_isSome_of_mem rel pr hpr
        rw [hpa, hga] at this
        exact absurd this (by simp)
      rw [hF]
      rfl
  | some inner =>
      obtain ⟨pr, hpr, hpk, hpv⟩ := jsMapGet_some_elim rel a inner hga
      have hia : jsMapGet φ pr.1 = some ia := by rw [hpk]; exact ha
      have hOV := OV pr hpr ia hia
      obtain ⟨IC, IV, IP⟩ :=
        remapInner_go φ hinj pr.2 [] (him pr hpr) (hinn pr hpr) (fun _ _ _ _ => rfl)
      rw [Option.some_bind]
      cases hgb : jsMapGet inner b with
      | some v =>
          obtain ⟨q, hq, hqk, hqv⟩ := jsMapGet_some_elim inner b v (hgb)
          have hq2 : q ∈ pr.2 := by rw [hpv]; exact hq
          have hib : jsMapGet φ q.1 = some ib := by rw [hqk]; exact hb
          have hIV := IV q hq2 ib hib
          have hpos : 0 < (pr.2.foldl (remapInnerStep φ) []).length := by
            cases hfl : pr.2.foldl (remapInnerStep φ) [] with
            | nil => rw [hfl] at hIV; exact absurd hIV (by simp [jsMapGet])
            | cons r t => simp
          rw [if_pos hpos] at hOV
          rw [hOV, Option.some_bind, hIV, hqv]
      | none =>
          by_cases hpos : 0 < (pr.2.foldl (remapInnerStep φ) []).length
          · rw [if_pos hpos] at hOV
            rw [hOV, Option.some_bind]
            cases hgf : jsMapGet (pr.2.foldl (remapInnerStep φ) []) ib with
            | none => rfl
            | some v =>
                rcases IC ib v hgf with h2 | ⟨q, hq, hqi, hqv⟩
                · exact absurd h2 (by simp [jsMapGet])
                · have hqb : q.1 = b := hinj q.1 b ib hqi hb
                  have := jsMapGet_isSome_of_mem pr.2 q hq
                  rw [hqb, hpv, hgb] at this
                  exact absurd this (by simp)
          · rw [if_neg hpos] at hOV
            rw [hOV]
            rfl

/-- Every edge of the remapped relationship graph is the image of a saved
edge under the old-to-new map. -/
theorem remap_backward (φ : List (ℕ × ℕ)) (rel : List (ℕ × List (ℕ × ℚ)))
    (hinj : ∀ a b i, jsMapGet φ a = some i → jsMapGet φ b = some i → a = b)
    (houter : (rel.map (fun pr => pr.1)).Nodup)
    (hom : ∀ pr ∈ rel, (jsMapGet φ pr.1).isSome)
    (him : ∀ pr ∈ rel, ∀ q ∈ pr.2, (jsMapGet φ q.1).isSome)
    (hinn : ∀ pr ∈ rel, (pr.2.map (fun q => q.1)).Nodup)
    (x y : ℕ) (v : ℚ) (h : relLookup (remapRelationships φ rel) x y = some v) :
    ∃ a b, jsMapGet φ a = some x ∧ jsMapGet φ b = some y ∧ relLookup rel a b = some v := by
  obtain ⟨OC, OV, OP, ON⟩ := remapOuter_go φ hinj rel [] hom houter (fun _ _ _ _ => rfl)
  rw [remapRelationships, relLookup] at h
  obtain ⟨innr, hFx, hiy⟩ := Option.bind_eq_some.mp h
  rcases OC x innr hFx with h2 | ⟨pr, hpr, hpx, hin, hpos⟩
  · exact absurd h2 (by simp [jsMapGet])
  · obtain ⟨IC, IV, IP⟩ :=
      remapInner_go φ hinj pr.2 [] (him pr hpr) (hinn pr hpr) (fun _ _ _ _ => rfl)
    rw [hin] at hiy
    rcases IC y v hiy with h3 | ⟨q, hq, hqy, hqv⟩
    · exact absurd h3 (by simp [jsMapGet])
    · refine ⟨pr.1, q.1, hpx, hqy, ?_⟩
      rw [relLookup, jsMapGet_of_mem_nodup rel houter pr hpr, Option.some_bind,
        jsMapGet_of_mem_nodup pr.2 (hinn pr hpr) q hq, hqv]

theorem idxPairs_get_mem :
    ∀ (l : List ℕ) (k0 i : ℕ) (h : i < l.length), (l.get ⟨i, h⟩, k0 + i) ∈ idxPairs k0 l := by
  intro l
  induction l with
  | nil => intro k0 i h; exact absurd h (by simp)
  | cons a l ih =>
      intro k0 i h
      cases i with
      | zero => exact List.mem_cons_self _ _
      | succ j =>
          have hj : j < l.length := by simpa using h
          have : (a :: l).get ⟨j + 1, h⟩ = l.get ⟨j, hj⟩ := rfl
          rw [this]
          have hmem := ih (k0 + 1) j hj
          have harith : k0 + 1 + j = k0 + (j + 1) := by omega
          rw [harith] at hmem
          exact List.mem_cons_of_mem _ hmem

/-- A duplicate-free list of naturals all below n has at most n elements. -/
theorem nodup_length_le (l : List ℕ) (n : ℕ) (hnd : l.Nodup) (hlt : ∀ e ∈ l, e < n) :
    l.length ≤ n := by
  have h1 : l.toFinset.card = l.length := List.toFinset_card_of_nodup hnd
  have h2 : l.toFinset ⊆ Finset.range n := by
    intro x hx
    rw [List.mem_toFinset] at hx
    rw [Finset.mem_range]
    exact hlt x hx
  have h3 := Finset.card_le_card h2
  rw [h1, Finset.card_range] at h3
  exact h3

/-- The save-then-load scenario: serialize the whole live world and
immediately deserialize it into a freshly reset world. -/
def roundTrip (w : WorldState) (rel : RelMap) (fs : FestivalState) (ts : ℕ) :
    WorldState × RelMap × FestivalState × Bool :=
  loadState w (some (saveState w rel fs ts))

/-- C3: saveState followed by loadState reconstructs the full world state:
with no prior snapshot loadState reports failure and leaves the world
untouched; after a save of a live world (duplicate-free entity ids below
the allocator, relationship endpoints among the live entities), loadState
reports success, restores the festival scalars, re-creates one entity per
saved eid as the consecutive ids 0..n-1 in saved order, restores every
persisted component value of every entity under that id mapping, and
rebuilds exactly the saved relationship graph transported along the same
mapping. -/
theorem persistence_round_trip
    (w : WorldState) (rel : RelMap) (fs : FestivalState) (ts : ℕ)
    (hnd : w.entities.Nodup)
    (hlt : ∀ e ∈ w.entities, e < w.nextEid)
    (hne : w.entities ≠ [])
    (houter : (rel.map (fun pr => pr.1)).Nodup)
    (hinn : ∀ pr ∈ rel, (pr.2.map (fun q => q.1)).Nodup)
    (hend : ∀ pr ∈ rel, pr.1 ∈ w.entities ∧ ∀ q ∈ pr.2, q.1 ∈ w.entities) :
    (∀ w0, loadState w0 none = (w0, initializeSocialState, initializeFestivalState, false)) ∧
    (roundTrip w rel fs ts).2.2.2 = true ∧
    (roundTrip w rel fs ts).2.2.1 = fs ∧
    (roundTrip w rel fs ts).1.entities = List.range w.entities.length ∧
    (roundTrip w rel fs ts).1.nextEid = w.entities.length ∧
    (∀ i (h : i < w.entities.length),
      pView (roundTrip w rel fs ts).1 i =
        (true, w.posX (w.entities.get ⟨i, h⟩), w.posY (w.entities.get ⟨i, h⟩),
          w.posZ (w.entities.get ⟨i, h⟩)) ∧
      vView (roundTrip w rel fs ts).1 i =
        (true, w.velX (w.entities.get ⟨i, h⟩), w.velY (w.entities.get ⟨i, h⟩),
          w.velZ (w.entities.get ⟨i, h⟩)) ∧
      gView (roundTrip w rel fs ts).1 i = (true, w.genomeId (w.entities.get ⟨i, h⟩)) ∧
      phView (roundTrip w rel fs ts).1 i =
        (true, w.phenR (w.entities.get ⟨i, h⟩), w.phenG (w.entities.get ⟨i, h⟩),
          w.phenB (w.entities.get ⟨i, h⟩), w.phenSize (w.entities.get ⟨i, h⟩)) ∧
      stView (roundTrip w rel fs ts).1 i =
        (true, w.stomachType (w.entities.get ⟨i, h⟩), w.stomachAmt (w.entities.get ⟨i, h⟩)) ∧
      enView (roundTrip w rel fs ts).1 i =
        (true, w.energyCur (w.entities.get ⟨i, h⟩), w.energyMax (w.entities.get ⟨i, h⟩)) ∧
      mdView (roundTrip w rel fs ts).1 i = (true, w.happiness (w.entities.get ⟨i, h⟩)) ∧
      cuView (roundTrip w rel fs ts).1 i = (true, w.dancing (w.entities.get ⟨i, h⟩))) ∧
    (∀ i j (hi : i < w.entities.length) (hj : j < w.entities.length),
      relLookup (roundTrip w rel fs ts).2.1 i j =
        relLookup rel (w.entities.get ⟨i, hi⟩) (w.entities.get ⟨j, hj⟩)) ∧
    (∀ x y v, relLookup (roundTrip w rel fs ts).2.1 x y = some v →
      x < w.entities.length ∧ y < w.entities.length) := by
  have hlen : w.entities.length ≤ w.nextEid := nodup_length_le w.entities w.nextEid hnd hlt
  have he : w.entities.take w.nextEid = w.entities := List.take_all_of_le hlen
  have hout : roundTrip w rel fs ts =
      (restoreAllComponents (savedComponents w) (idxPairs 0 w.entities)
        { emptyWorld with entities := List.range w.entities.length,
                          nextEid := w.entities.length },
       setRelationshipStrengths (remapRelationships (idxPairs 0 w.entities) rel),
       fs, true) := by
    rw [roundTrip]
    simp only [loadState, saveState, he, buildEidMap_eq w.entities w.nextEid hlt hnd]
    rw [if_pos (List.length_pos.mpr hne)]
  have hnd2 : ((idxPairs 0 w.entities).map (fun q => q.2)).Nodup := by
    rw [idxPairs_snd]
    exact List.nodup_range' _ _
  have hd : ∀ p ∈ idxPairs 0 w.entities, p.1 < w.nextEid := by
    intro p hp
    obtain ⟨j, hj, h2, hg⟩ := idxPairs_mem_inv w.entities 0 p hp
    rw [← hg]
    exact hlt _ (w.entities.get_mem _ _)
  have hinj : ∀ a b k, jsMapGet (idxPairs 0 w.entities) a = some k →
      jsMapGet (idxPairs 0 w.entities) b = some k → a = b := by
    intro a b k hak hbk
    obtain ⟨ja, hja, hka, hga⟩ := idxPairs_lookup_inv w.entities 0 a k hak
    obtain ⟨jb, hjb, hkb, hgb⟩ := idxPairs_lookup_inv w.entities 0 b k hbk
    have hjj : ja = jb := by omega
    subst hjj
    rw [← hga, ← hgb]
  have hmapped : ∀ a ∈ w.entities, (jsMapGet (idxPairs 0 w.entities) a).isSome := by
    intro a ha
    obtain ⟨⟨j, hj⟩, hg⟩ := List.mem_iff_get.mp ha
    rw [← hg, idxPairs_lookup_get w.entities hnd 0 j hj]
    rfl
  have hgetmap : ∀ i (h : i < w.entities.length),
      jsMapGet (idxPairs 0 w.entities) (w.entities.get ⟨i, h⟩) = some i := by
    intro i h
    have := idxPairs_lookup_get w.entities hnd 0 i h
    simpa using this
  refine ⟨fun w0 => rfl, ?_, ?_, ?_, ?_, ?_, ?_, ?_⟩
  · rw [hout]
  · rw [hout]
  · rw [hout]
    exact congrArg Prod.fst (restoreAll_idView _ _ _)
  · rw [hout]
    exact congrArg Prod.snd (restoreAll_idView _ _ _)
  · intro i h
    have hp : (w.entities.get ⟨i, h⟩, i) ∈ idxPairs 0 w.entities := by
      have := idxPairs_get_mem w.entities 0 i h
      simpa using this
    rw [hout]
    exact ⟨restoreAll_pView w _ _ hnd2 hd _ hp, restoreAll_vView w _ _ hnd2 hd _ hp,
      restoreAll_gView w _ _ hnd2 hd _ hp, restoreAll_phView w _ _ hnd2 hd _ hp,
      restoreAll_stView w _ _ hnd2 hd _ hp, restoreAll_enView w _ _ hnd2 hd _ hp,
      restoreAll_mdView w _ _ hnd2 hd _ hp, restoreAll_cuView w _ _ hnd2 hd _ hp⟩
  · intro i j hi hj
    rw [hout]
    show relLookup (setRelationshipStrengths (remapRelationships (idxPairs 0 w.entities) rel))
      i j = _
    rw [setRelationshipStrengths_eq]
    exact remap_forward (idxPairs 0 w.entities) rel hinj houter
      (fun pr hpr => hmapped pr.1 (hend pr hpr).1)
      (fun pr hpr q hq => hmapped q.1 ((hend pr hpr).2 q hq))
      hinn _ _ i j (hgetmap i hi) (hgetmap j hj)
  · intro x y v hv
    rw [hout] at hv
    rw [show (restoreAllComponents (savedComponents w) (idxPairs 0 w.entities)
        { emptyWorld with entities := List.range w.entities.length,
                          nextEid := w.entities.length },
        setRelationshipStrengths (remapRelationships (idxPairs 0 w.entities) rel),
        fs, true).2.1 = setRelationshipStrengths (remapRelationships
          (idxPairs 0 w.entities) rel) from rfl, setRelationshipStrengths_eq] at hv
    obtain ⟨a, b, hax, hby, hr⟩ := remap_backward (idxPairs 0 w.entities) rel hinj houter
      (fun pr hpr => hmapped pr.1 (hend pr hpr).1)
      (fun pr hpr q hq => hmapped q.1 ((hend pr hpr).2 q hq))
      hinn x y v hv
    obtain ⟨ja, hja, hka, hga⟩ := idxPairs_lookup_inv w.entities 0 a x hax
    obtain ⟨jb, hjb, hkb, hgb⟩ := idxPairs_lookup_inv w.entities 0 b y hby
    constructor
    · omega
    · omega

/-- A one-creature live world used to exercise the round trip. -/
def persistWorldW : WorldState :=
  { emptyWorld with
      entities := [0], nextEid := 1,
      hasPosition := fun _ => true, posX := fun _ => 3,
      hasEnergy := fun _ => true, energyCur := fun _ => 7, energyMax := fun _ => 10 }

/-- A one-edge relationship graph used to exercise the round trip. -/
def persistRelW : RelMap := [(0, [(0, 1/2)])]

theorem persistence_round_trip_witness :
    persistWorldW.entities.Nodup ∧ persistWorldW.entities ≠ [] ∧
    (roundTrip persistWorldW persistRelW initializeFestivalState 5).2.2.2 = true ∧
    (roundTrip persistWorldW persistRelW initializeFestivalState 5).2.2.1 =
      initializeFestivalState ∧
    (roundTrip persistWorldW persistRelW initializeFestivalState 5).1.entities = [0] ∧
    pView (roundTrip persistWorldW persistRelW initializeFestivalState 5).1 0 =
      (true, 3, 0, 0) ∧
    relLookup (roundTrip persistWorldW persistRelW initializeFestivalState 5).2.1 0 0 =
      some (1/2) := by
  have h := persistence_round_trip persistWorldW persistRelW initializeFestivalState 5
    (by decide) (by decide) (by decide) (by decide) (by decide) (by decide)
  refine ⟨by decide, by decide, h.2.1, h.2.2.1, ?_, ?_, ?_⟩
  · rw [h.2.2.2.1]
    rfl
  · have hv := (h.2.2.2.2.2.1 0 (by decide)).1
    rw [hv]
    rfl
  · have hr := h.2.2.2.2.2.2.1 0 0 (by decide) (by decide)
    rw [hr]
    rfl

end Aquarium
